import Mathlib

/-!
Verification of the nearai_frame_manager core pipeline.

This file gives a shallow embedding of the metadata-fusion and
acquisition/sequence-rendering pipeline of the repository
(processing.py, common.py, cli.py, constants.py) and proves the
frozen claims about it.  Python dict/list/None value trees are
embedded as the inductive type PyVal; records, pose rows and
trajectory rows are embedded as structures mirroring models.py;
machine floats carried verbatim through the pipeline are embedded
as rationals (no float arithmetic is performed by the modelled
code, values are only stored, compared with None and copied).
-/

namespace FrameManager

/-- A Python value tree as it occurs in the pipeline's payloads:
None, a number (int or float), a string, a dict (insertion-ordered
association list with unique keys) or a list.  Booleans do not occur
in any of the modelled payloads. -/
inductive PyVal where
  | null : PyVal
  | num : ℚ → PyVal
  | str : String → PyVal
  | dict : List (String × PyVal) → PyVal
  | list : List PyVal → PyVal

/-- The keep-condition used by common.prune_none: a dict entry or list
item survives iff its (already pruned) value is not None, not an empty
dict and not an empty list. -/
def keepVal : PyVal → Bool
  | .null => false
  | .dict [] => false
  | .list [] => false
  | _ => true

mutual

/-- common.prune_none: recursively remove None values and empty
containers from a value tree; scalars pass through unchanged. -/
def prune_none : PyVal → PyVal
  | .dict es => .dict (pruneEntries es)
  | .list xs => .list (pruneItems xs)
  | v => v

/-- The dict branch of common.prune_none: prune each entry value and
drop entries whose pruned value is None or an empty container. -/
def pruneEntries : List (String × PyVal) → List (String × PyVal)
  | [] => []
  | (k, v) :: rest =>
    let w := prune_none v
    if keepVal w then (k, w) :: pruneEntries rest else pruneEntries rest

/-- The list branch of common.prune_none: prune each item and drop
items whose pruned value is None or an empty container. -/
def pruneItems : List PyVal → List PyVal
  | [] => []
  | v :: rest =>
    let w := prune_none v
    if keepVal w then w :: pruneItems rest else pruneItems rest

end

mutual

/-- A value tree contains, strictly inside itself, no None value, no
empty dict value and no empty list value (at any nesting depth). -/
def subOk : PyVal → Bool
  | .dict es => subOkEntries es
  | .list xs => subOkItems xs
  | _ => true

/-- subOk for the entry list of a dict. -/
def subOkEntries : List (String × PyVal) → Bool
  | [] => true
  | (_, v) :: rest => keepVal v && subOk v && subOkEntries rest

/-- subOk for the item list of a list. -/
def subOkItems : List PyVal → Bool
  | [] => true
  | v :: rest => keepVal v && subOk v && subOkItems rest

end

mutual

theorem prune_none_idem : (v : PyVal) → prune_none (prune_none v) = prune_none v
  | .null => rfl
  | .num _ => rfl
  | .str _ => rfl
  | .dict es => by simp only [prune_none, pruneEntries_idem es]
  | .list xs => by simp only [prune_none, pruneItems_idem xs]

theorem pruneEntries_idem : (es : List (String × PyVal)) →
    pruneEntries (pruneEntries es) = pruneEntries es
  | [] => rfl
  | (k, v) :: rest => by
    by_cases h : keepVal (prune_none v)
    · simp only [pruneEntries, h, if_true, prune_none_idem v, pruneEntries_idem rest]
    · simp [pruneEntries, h, pruneEntries_idem rest]

theorem pruneItems_idem : (xs : List PyVal) → pruneItems (pruneItems xs) = pruneItems xs
  | [] => rfl
  | v :: rest => by
    by_cases h : keepVal (prune_none v)
    · simp only [pruneItems, h, if_true, prune_none_idem v, pruneItems_idem rest]
    · simp [pruneItems, h, pruneItems_idem rest]

end

mutual

theorem prune_none_subOk : (v : PyVal) → subOk (prune_none v) = true
  | .null => rfl
  | .num _ => rfl
  | .str _ => rfl
  | .dict es => by simp only [prune_none, subOk, pruneEntries_subOk es]
  | .list xs => by simp only [prune_none, subOk, pruneItems_subOk xs]

theorem pruneEntries_subOk : (es : List (String × PyVal)) →
    subOkEntries (pruneEntries es) = true
  | [] => rfl
  | (k, v) :: rest => by
    by_cases h : keepVal (prune_none v)
    · simp only [pruneEntries, h, if_true, subOkEntries, prune_none_subOk v,
        pruneEntries_subOk rest, Bool.and_self, Bool.and_true]
    · simp [pruneEntries, h, pruneEntries_subOk rest]

theorem pruneItems_subOk : (xs : List PyVal) → subOkItems (pruneItems xs) = true
  | [] => rfl
  | v :: rest => by
    by_cases h : keepVal (prune_none v)
    · simp only [pruneItems, h, if_true, subOkItems, prune_none_subOk v,
        pruneItems_subOk rest, Bool.and_self, Bool.and_true]
    · simp [pruneItems, h, pruneItems_subOk rest]

end

/-- C10: the recursive empty-value pruner common.prune_none is
idempotent, and its result contains at no nesting depth a None value,
an empty dict value or an empty list value. -/
theorem prune_none_idempotent_and_clean (v : PyVal) :
    prune_none (prune_none v) = prune_none v ∧ subOk (prune_none v) = true :=
  ⟨prune_none_idem v, prune_none_subOk v⟩

/-- First-match lookup in a Python dict, as Option (presence of a key). -/
def dictGet : List (String × PyVal) → String → Option PyVal
  | [], _ => Option.none
  | (k, v) :: rest, key => if k = key then Option.some v else dictGet rest key

/-- Python dict assignment d[key] = v: replace the value at the first
occurrence of the key (keeping its insertion position), else append. -/
def dictSet : List (String × PyVal) → String → PyVal → List (String × PyVal)
  | [], key, v => [(key, v)]
  | (k, w) :: rest, key, v =>
    if k = key then (k, v) :: rest else (k, w) :: dictSet rest key v

/-- Python d.get(key): the stored value, or None when the key is absent. -/
def pyGet (es : List (String × PyVal)) (key : String) : PyVal :=
  (dictGet es key).getD .null

/-- Python v.get(key) for a receiver that is a dict in every modelled
call site (the None receiver arises from d.get with default None or {};
a non-dict, non-None receiver would be a TypeError in the source). -/
def pyGetV : PyVal → String → PyVal
  | .dict es, key => pyGet es key
  | _, _ => .null

/-- Python truthiness for the values occurring in the pipeline. -/
def pyTruthy : PyVal → Bool
  | .null => false
  | .num q => if q = 0 then false else true
  | .str s => if s = "" then false else true
  | .dict es => !es.isEmpty
  | .list xs => !xs.isEmpty

/-- Python x or y: x when truthy, else y. -/
def pyOr (a b : PyVal) : PyVal := if pyTruthy a then a else b

/-- An optional string field of a pose row as a Python value. -/
def optStr : Option String → PyVal
  | Option.some s => .str s
  | Option.none => .null

/-- An optional numeric field of a pose row as a Python value. -/
def optNum : Option ℚ → PyVal
  | Option.some q => .num q
  | Option.none => .null

/-- models.PoseRow: one row of the pose lookup built by
csv_utils.load_pose_csv; every field is a parsed value or None. -/
structure PoseRow where
  file_name : Option String
  gps_seconds : Option ℚ
  timestamp : Option String
  gps_latitude : Option ℚ
  gps_longitude : Option ℚ
  gps_altitude_m : Option ℚ
  heading_deg : Option ℚ
  pitch_deg : Option ℚ
  roll_deg : Option ℚ

/-- The empty pose dict substituted for an absent csv_pose inside
build_pose_entry and build_annotation_payload: every field read
returns None. -/
def emptyPoseRow : PoseRow :=
  ⟨Option.none, Option.none, Option.none, Option.none, Option.none,
   Option.none, Option.none, Option.none, Option.none⟩

/-- models.Record: the fused record built by processing.build_records. -/
structure Record where
  src : String
  ext : String
  original_name : String
  acquisition_date : String
  derived : List (String × PyVal)
  mtime : ℚ
  csv_pose : Option PoseRow

/-- One override step of processing.apply_csv_overrides: when the CSV
value is non-null, store it under the gps key. -/
def overrideNum (gps : List (String × PyVal)) (gps_key : String) :
    Option ℚ → List (String × PyVal)
  | Option.none => gps
  | Option.some q => dictSet gps gps_key (.num q)

/-- The merged (pre-prune) gps entry list computed inside
processing.apply_csv_overrides: start from the "gps" value of derived
(a dict at every call site, empty dict when absent), overlay non-null
CSV latitude/longitude/altitude, then a non-null CSV timestamp. -/
def csvGps (derived : List (String × PyVal)) (p : PoseRow) : List (String × PyVal) :=
  let gps0 := match dictGet derived "gps" with
    | Option.some (.dict es) => es
    | _ => []
  let g1 := overrideNum gps0 "latitude_deg" p.gps_latitude
  let g2 := overrideNum g1 "longitude_deg" p.gps_longitude
  let g3 := overrideNum g2 "altitude_m" p.gps_altitude_m
  match p.timestamp with
  | Option.some t => dictSet g3 "timestamp_utc" (.str t)
  | Option.none => g3

/-- processing.apply_csv_overrides: overlay CSV pose values onto the
EXIF-derived metadata tree and store the pruned merged gps sub-tree
back under "gps".  An absent csv_pose returns derived unchanged. -/
def apply_csv_overrides (derived : List (String × PyVal)) (csv_pose : Option PoseRow) :
    List (String × PyVal) :=
  match csv_pose with
  | Option.none => derived
  | Option.some p => dictSet derived "gps" (prune_none (.dict (csvGps derived p)))

/-- models renders of a trajectory row (processing.build_pose_entry). -/
structure TrajRow where
  frame_index : Nat
  image_name : String
  timestamp : PyVal
  gps_latitude : PyVal
  gps_longitude : PyVal
  gps_altitude_m : PyVal
  heading_deg : PyVal
  pitch_deg : PyVal
  roll_deg : PyVal

/-- processing.build_pose_entry: build a pose CSV row for a frame.
The timestamp takes the first truthy of CSV timestamp, merged GPS
timestamp, embedded datetime. -/
def build_pose_entry (info : Record) (frame_index : Nat) (image_name : String) : TrajRow :=
  let derived := info.derived
  let gps_info := pyGet derived "gps"
  let csv := info.csv_pose.getD emptyPoseRow
  ⟨frame_index, image_name,
    pyOr (pyOr (optStr csv.timestamp) (pyGetV gps_info "timestamp_utc"))
      (pyGet derived "datetime_original"),
    pyGetV gps_info "latitude_deg",
    pyGetV gps_info "longitude_deg",
    pyGetV gps_info "altitude_m",
    optNum csv.heading_deg,
    optNum csv.pitch_deg,
    optNum csv.roll_deg⟩

/-- The entry list of the annotation payload dict built by
processing.build_annotation_payload, before the final prune_none. -/
def payloadEntries (info : Record)
    (acquisition_id sequence_id sensor_id : String) (frame_index : Nat) :
    List (String × PyVal) :=
  let derived := info.derived
  let gps_info := dictGet derived "gps"
  let csv := info.csv_pose.getD emptyPoseRow
  let gpsTs : PyVal := match gps_info with
    | Option.some g => if pyTruthy g then pyGetV g "timestamp_utc" else .null
    | Option.none => .null
  [
    ("previous_name", .str info.original_name),
    ("acquisition_id", .str acquisition_id),
    ("sequence_id", .str sequence_id),
    ("sensor_id", .str sensor_id),
    ("frame_index", .num frame_index),
    ("capture", .dict [
      ("datetime_original", pyGet derived "datetime_original"),
      ("gps_timestamp_utc", gpsTs)]),
    ("gps", pyGet derived "gps"),
    ("pose", .dict [
      ("source", if info.csv_pose.isSome then .str "csv" else .null),
      ("timestamp", optStr csv.timestamp),
      ("gps_seconds", optNum csv.gps_seconds),
      ("gps_latitude", optNum csv.gps_latitude),
      ("gps_longitude", optNum csv.gps_longitude),
      ("gps_altitude_m", optNum csv.gps_altitude_m),
      ("heading_deg", optNum csv.heading_deg),
      ("pitch_deg", optNum csv.pitch_deg),
      ("roll_deg", optNum csv.roll_deg)])]

/-- processing.build_annotation_payload: the annotation JSON payload for
a single frame, pruned of empty values at the end. -/
def build_annotation_payload (info : Record)
    (acquisition_id sequence_id sensor_id : String) (frame_index : Nat) : PyVal :=
  prune_none (.dict (payloadEntries info acquisition_id sequence_id sensor_id frame_index))

/-- Look up a key in the merged GPS sub-tree stored in a derived
metadata dict (Option.none when the sub-tree or the key is absent). -/
def mergedGpsGet (derived : List (String × PyVal)) (key : String) : Option PyVal :=
  match dictGet derived "gps" with
  | Option.some (.dict es) => dictGet es key
  | _ => Option.none

/-- Look up a key in the "gps" sub-tree of a rendered annotation payload. -/
def payloadGpsGet (payload : PyVal) (key : String) : Option PyVal :=
  match payload with
  | .dict es =>
    match dictGet es "gps" with
    | Option.some (.dict gs) => dictGet gs key
    | _ => Option.none
  | _ => Option.none

theorem dictGet_dictSet_self (es : List (String × PyVal)) (key : String) (v : PyVal) :
    dictGet (dictSet es key v) key = Option.some v := by
  induction es with
  | nil => simp [dictGet, dictSet]
  | cons e rest ih =>
    obtain ⟨k, w⟩ := e
    by_cases h : k = key
    · simp [dictGet, dictSet, h]
    · simp [dictGet, dictSet, h, ih]

theorem dictGet_dictSet_ne (es : List (String × PyVal)) (key key' : String) (v : PyVal)
    (h : key' ≠ key) : dictGet (dictSet es key v) key' = dictGet es key' := by
  induction es with
  | nil => simp [dictGet, dictSet, Ne.symm h]
  | cons e rest ih =>
    obtain ⟨k, w⟩ := e
    by_cases hk : k = key
    · subst hk
      simp [dictGet, dictSet, Ne.symm h]
    · simp [dictGet, dictSet, hk, ih]

theorem dictGet_overrideNum_ne (g : List (String × PyVal)) (key gkey : String)
    (o : Option ℚ) (h : key ≠ gkey) :
    dictGet (overrideNum g gkey o) key = dictGet g key := by
  cases o with
  | none => rfl
  | some q => exact dictGet_dictSet_ne g gkey key (.num q) h

theorem dictGet_pruneEntries (es : List (String × PyVal)) (key : String) (v : PyVal)
    (hv : dictGet es key = Option.some v) (hkeep : keepVal (prune_none v) = true) :
    dictGet (pruneEntries es) key = Option.some (prune_none v) := by
  induction es with
  | nil => simp [dictGet] at hv
  | cons e rest ih =>
    obtain ⟨k, w⟩ := e
    by_cases h : k = key
    · subst h
      simp [dictGet] at hv
      subst hv
      simp [pruneEntries, hkeep, dictGet]
    · simp only [dictGet, if_neg h] at hv
      by_cases hk : keepVal (prune_none w)
      · simp [pruneEntries, hk, dictGet, h, ih hv]
      · simp [pruneEntries, hk, ih hv]

theorem dictGet_nonempty (es : List (String × PyVal)) (key : String) (v : PyVal)
    (hv : dictGet es key = Option.some v) : es ≠ [] := by
  intro h
  subst h
  simp [dictGet] at hv

theorem csvGps_latitude (d : List (String × PyVal)) (p : PoseRow) (la : ℚ)
    (h : p.gps_latitude = Option.some la) :
    dictGet (csvGps d p) "latitude_deg" = Option.some (.num la) := by
  unfold csvGps
  rw [h]
  cases hts : p.timestamp with
  | some t =>
    rw [dictGet_dictSet_ne _ _ _ _ (by decide),
      dictGet_overrideNum_ne _ _ _ _ (by decide),
      dictGet_overrideNum_ne _ _ _ _ (by decide)]
    exact dictGet_dictSet_self _ _ _
  | none =>
    rw [dictGet_overrideNum_ne _ _ _ _ (by decide),
      dictGet_overrideNum_ne _ _ _ _ (by decide)]
    exact dictGet_dictSet_self _ _ _

theorem csvGps_longitude (d : List (String × PyVal)) (p : PoseRow) (lo : ℚ)
    (h : p.gps_longitude = Option.some lo) :
    dictGet (csvGps d p) "longitude_deg" = Option.some (.num lo) := by
  unfold csvGps
  rw [h]
  cases hts : p.timestamp with
  | some t =>
    rw [dictGet_dictSet_ne _ _ _ _ (by decide),
      dictGet_overrideNum_ne _ _ _ _ (by decide)]
    exact dictGet_dictSet_self _ _ _
  | none =>
    rw [dictGet_overrideNum_ne _ _ _ _ (by decide)]
    exact dictGet_dictSet_self _ _ _

theorem csvGps_altitude (d : List (String × PyVal)) (p : PoseRow) (al : ℚ)
    (h : p.gps_altitude_m = Option.some al) :
    dictGet (csvGps d p) "altitude_m" = Option.some (.num al) := by
  unfold csvGps
  rw [h]
  cases hts : p.timestamp with
  | some t =>
    rw [dictGet_dictSet_ne _ _ _ _ (by decide)]
    exact dictGet_dictSet_self _ _ _
  | none => exact dictGet_dictSet_self _ _ _

theorem csvGps_timestamp (d : List (String × PyVal)) (p : PoseRow) (ts : String)
    (h : p.timestamp = Option.some ts) :
    dictGet (csvGps d p) "timestamp_utc" = Option.some (.str ts) := by
  unfold csvGps
  rw [h]
  exact dictGet_dictSet_self _ _ _

theorem apply_csv_gps (d : List (String × PyVal)) (p : PoseRow) :
    dictGet (apply_csv_overrides d (Option.some p)) "gps" =
      Option.some (.dict (pruneEntries (csvGps d p))) := by
  unfold apply_csv_overrides
  rw [dictGet_dictSet_self]
  rfl

theorem mergedGpsGet_of_csv (d : List (String × PyVal)) (p : PoseRow) (key : String)
    (w : PyVal) (hw : dictGet (csvGps d p) key = Option.some w)
    (hid : prune_none w = w) (hkeep : keepVal w = true) :
    mergedGpsGet (apply_csv_overrides d (Option.some p)) key = Option.some w := by
  unfold mergedGpsGet
  rw [apply_csv_gps]
  show dictGet (pruneEntries (csvGps d p)) key = Option.some w
  rw [dictGet_pruneEntries _ _ _ hw (by rw [hid]; exact hkeep), hid]

theorem dictGet_payloadEntries_gps (r : Record) (aid sid sen : String) (fidx : Nat) :
    dictGet (payloadEntries r aid sid sen fidx) "gps" =
      Option.some (pyGet r.derived "gps") := by
  simp [payloadEntries, dictGet]

theorem payloadGpsGet_of (r : Record) (aid sid sen : String) (fidx : Nat)
    (gs : List (String × PyVal)) (hg : dictGet r.derived "gps" = Option.some (.dict gs))
    (key : String) (w : PyVal) (hw : dictGet gs key = Option.some w)
    (hid : prune_none w = w) (hkeep : keepVal w = true) :
    payloadGpsGet (build_annotation_payload r aid sid sen fidx) key = Option.some w := by
  have hkey : dictGet (pruneEntries gs) key = Option.some w := by
    rw [dictGet_pruneEntries gs key w hw (by rw [hid]; exact hkeep), hid]
  have hne : pruneEntries gs ≠ [] := dictGet_nonempty _ _ _ hkey
  have hpg : prune_none (.dict gs) = .dict (pruneEntries gs) := by simp [prune_none]
  have hkeepg : keepVal (prune_none (.dict gs)) = true := by
    rw [hpg]
    cases hgs : pruneEntries gs with
    | nil => exact absurd hgs hne
    | cons a l => rfl
  have hpv : pyGet r.derived "gps" = .dict gs := by
    unfold pyGet
    rw [hg]
    rfl
  have hentry : dictGet (payloadEntries r aid sid sen fidx) "gps" =
      Option.some (PyVal.dict gs) := by
    rw [dictGet_payloadEntries_gps, hpv]
  have hpruned : dictGet (pruneEntries (payloadEntries r aid sid sen fidx)) "gps" =
      Option.some (.dict (pruneEntries gs)) := by
    rw [dictGet_pruneEntries _ _ _ hentry hkeepg, hpg]
  unfold build_annotation_payload
  have hb : prune_none (.dict (payloadEntries r aid sid sen fidx)) =
      .dict (pruneEntries (payloadEntries r aid sid sen fidx)) := by simp [prune_none]
  rw [hb]
  simp only [payloadGpsGet, hpruned]
  exact hkey

/-- C1: CSV pose values take precedence over embedded EXIF GPS values.
For a record whose derived metadata was fused by apply_csv_overrides
with an attached PoseRecord, each non-null PoseRecord latitude,
longitude and altitude is the value found in the merged GPS sub-tree,
in the rendered annotation payload's GPS sub-tree and in the trajectory
row, and a PoseRecord timestamp is the merged GPS timestamp. -/
theorem csv_override_precedence (r : Record) (d : List (String × PyVal)) (p : PoseRow)
    (hd : r.derived = apply_csv_overrides d (Option.some p))
    (hp : r.csv_pose = Option.some p)
    (aid sid sen iname : String) (fidx : Nat) :
    (∀ la, p.gps_latitude = Option.some la →
       mergedGpsGet r.derived "latitude_deg" = Option.some (.num la) ∧
       payloadGpsGet (build_annotation_payload r aid sid sen fidx) "latitude_deg" =
         Option.some (.num la) ∧
       (build_pose_entry r fidx iname).gps_latitude = .num la) ∧
    (∀ lo, p.gps_longitude = Option.some lo →
       mergedGpsGet r.derived "longitude_deg" = Option.some (.num lo) ∧
       payloadGpsGet (build_annotation_payload r aid sid sen fidx) "longitude_deg" =
         Option.some (.num lo) ∧
       (build_pose_entry r fidx iname).gps_longitude = .num lo) ∧
    (∀ al, p.gps_altitude_m = Option.some al →
       mergedGpsGet r.derived "altitude_m" = Option.some (.num al) ∧
       payloadGpsGet (build_annotation_payload r aid sid sen fidx) "altitude_m" =
         Option.some (.num al) ∧
       (build_pose_entry r fidx iname).gps_altitude_m = .num al) ∧
    (∀ ts, p.timestamp = Option.some ts →
       mergedGpsGet r.derived "timestamp_utc" = Option.some (.str ts) ∧
       payloadGpsGet (build_annotation_payload r aid sid sen fidx) "timestamp_utc" =
         Option.some (.str ts)) := by
  have hg : dictGet r.derived "gps" =
      Option.some (.dict (pruneEntries (csvGps d p))) := by
    rw [hd]
    exact apply_csv_gps d p
  have hmerged : ∀ key w, dictGet (pruneEntries (csvGps d p)) key = Option.some w →
      mergedGpsGet r.derived key = Option.some w := by
    intro key w hw
    simp only [mergedGpsGet, hg]
    exact hw
  have hrowgps : pyGet r.derived "gps" = .dict (pruneEntries (csvGps d p)) := by
    unfold pyGet
    rw [hg]
    rfl
  refine ⟨?_, ?_, ?_, ?_⟩
  · intro la hla
    have hw0 := csvGps_latitude d p la hla
    have hw : dictGet (pruneEntries (csvGps d p)) "latitude_deg" =
        Option.some (.num la) := by
      rw [dictGet_pruneEntries _ _ _ hw0 (by simp [prune_none, keepVal])]
      simp [prune_none]
    refine ⟨hmerged _ _ hw, payloadGpsGet_of r aid sid sen fidx _ hg _ _ hw
      (by simp [prune_none]) (by simp [keepVal]), ?_⟩
    simp [build_pose_entry, pyGetV, pyGet, hg, hw]
  · intro lo hlo
    have hw0 := csvGps_longitude d p lo hlo
    have hw : dictGet (pruneEntries (csvGps d p)) "longitude_deg" =
        Option.some (.num lo) := by
      rw [dictGet_pruneEntries _ _ _ hw0 (by simp [prune_none, keepVal])]
      simp [prune_none]
    refine ⟨hmerged _ _ hw, payloadGpsGet_of r aid sid sen fidx _ hg _ _ hw
      (by simp [prune_none]) (by simp [keepVal]), ?_⟩
    simp [build_pose_entry, pyGetV, pyGet, hg, hw]
  · intro al hal
    have hw0 := csvGps_altitude d p al hal
    have hw : dictGet (pruneEntries (csvGps d p)) "altitude_m" =
        Option.some (.num al) := by
      rw [dictGet_pruneEntries _ _ _ hw0 (by simp [prune_none, keepVal])]
      simp [prune_none]
    refine ⟨hmerged _ _ hw, payloadGpsGet_of r aid sid sen fidx _ hg _ _ hw
      (by simp [prune_none]) (by simp [keepVal]), ?_⟩
    simp [build_pose_entry, pyGetV, pyGet, hg, hw]
  · intro ts hts
    have hw0 := csvGps_timestamp d p ts hts
    have hw : dictGet (pruneEntries (csvGps d p)) "timestamp_utc" =
        Option.some (.str ts) := by
      rw [dictGet_pruneEntries _ _ _ hw0 (by simp [prune_none, keepVal])]
      simp [prune_none]
    exact ⟨hmerged _ _ hw, payloadGpsGet_of r aid sid sen fidx _ hg _ _ hw
      (by simp [prune_none]) (by simp [keepVal])⟩

/-- Concrete pose row exercising csv_override_precedence. -/
def c1pose : PoseRow :=
  ⟨Option.some "a", Option.some 100, Option.some "2024-01-02T03:04:05Z",
   Option.some 1, Option.some 2, Option.some 3, Option.none, Option.none, Option.none⟩

/-- Concrete derived metadata with differing embedded GPS values. -/
def c1derived : List (String × PyVal) :=
  [("gps", .dict [("latitude_deg", .num 9), ("longitude_deg", .num 8)])]

/-- Concrete fused record exercising csv_override_precedence. -/
def c1rec : Record :=
  ⟨"a.jpg", ".jpg", "a.jpg", "20240102",
   apply_csv_overrides c1derived (Option.some c1pose), 0, Option.some c1pose⟩

theorem csv_override_precedence_witness :
    c1pose.gps_latitude = Option.some 1 ∧
    c1pose.timestamp = Option.some "2024-01-02T03:04:05Z" ∧
    mergedGpsGet c1rec.derived "latitude_deg" = Option.some (.num 1) ∧
    payloadGpsGet (build_annotation_payload c1rec "A1" "S001" "Cam" 1) "latitude_deg" =
      Option.some (.num 1) ∧
    (build_pose_entry c1rec 1 "i.jpg").gps_latitude = .num 1 ∧
    mergedGpsGet c1rec.derived "timestamp_utc" =
      Option.some (.str "2024-01-02T03:04:05Z") := by
  have h := csv_override_precedence c1rec c1derived c1pose rfl rfl "A1" "S001" "Cam" "i.jpg" 1
  exact ⟨rfl, rfl, (h.1 1 rfl).1, (h.1 1 rfl).2.1, (h.1 1 rfl).2.2,
    (h.2.2.2 "2024-01-02T03:04:05Z" rfl).1⟩

/-- One decimal digit as a character. -/
def digitChar (d : Nat) : Char := Char.ofNat (48 + d)

/-- Decimal digit characters by structural fuel recursion (fuel n + 1
suffices for the value n). -/
def numCharsAux (fuel n : Nat) : List Char :=
  match fuel with
  | 0 => []
  | f + 1 =>
    if n < 10 then [digitChar n]
    else numCharsAux f (n / 10) ++ [digitChar (n % 10)]

/-- Decimal digit characters of a natural number, most significant
first: the characters of Python str(n). -/
def numChars (n : Nat) : List Char := numCharsAux (n + 1) n

theorem numCharsAux_fuel (n : Nat) : ∀ f1 f2 : Nat, n < f1 → n < f2 →
    numCharsAux f1 n = numCharsAux f2 n := by
  induction n using Nat.strong_induction_on with
  | _ n ih =>
    intro f1 f2 h1 h2
    match f1, f2 with
    | g1 + 1, g2 + 1 =>
      simp only [numCharsAux]
      by_cases h : n < 10
      · simp [h]
      · have hdiv : n / 10 < n := Nat.div_lt_self (by omega) (by omega)
        simp only [h, if_neg, not_false_iff]
        rw [ih (n / 10) hdiv g1 (n / 10 + 1) (by omega) (by omega),
          ih (n / 10) hdiv g2 (n / 10 + 1) (by omega) (by omega)]

theorem numChars_eq (n : Nat) : numChars n =
    if n < 10 then [digitChar n] else numChars (n / 10) ++ [digitChar (n % 10)] := by
  show numCharsAux (n + 1) n = _
  simp only [numCharsAux]
  by_cases h : n < 10
  · simp [h]
  · have hdiv : n / 10 < n := Nat.div_lt_self (by omega) (by omega)
    simp only [h, if_neg, not_false_iff]
    rw [numCharsAux_fuel (n / 10) n (n / 10 + 1) (by omega) (by omega)]
    rfl

/-- Parse decimal digit characters back to a number (leading zeros
allowed). -/
def charsVal (cs : List Char) : Nat :=
  cs.foldl (fun a c => a * 10 + (c.toNat - 48)) 0

/-- Python zero-padded decimal formatting of width w (the format
string 0wd): zeros in front of str(n) up to width w. -/
def padNum (w n : Nat) : String :=
  ⟨List.replicate (w - (numChars n).length) '0' ++ numChars n⟩

/-- processing.sequence_ids: (sequence_id, frame_id, frame_index) for a
1-based record index and a positive capacity max_per_seq. -/
def sequence_ids (index max_per_seq : Nat) : String × String × Nat :=
  let sequence_index := (index - 1) / max_per_seq + 1
  let frame_index := (index - 1) % max_per_seq + 1
  ("S" ++ padNum 3 sequence_index, padNum 6 frame_index, frame_index)

/-- The sequence number assigned to 1-based position p with capacity m. -/
def seqNum (p m : Nat) : Nat := (p - 1) / m + 1

/-- The frame number assigned to 1-based position p with capacity m. -/
def frameNum (p m : Nat) : Nat := (p - 1) % m + 1

/-- How many of the n records of an acquisition land in sequence k. -/
def seqSize (n m k : Nat) : Nat :=
  ((Finset.Icc 1 n).filter (fun p => seqNum p m = k)).card

/-- The number of sequences produced for n records (n ≥ 1). -/
def numSeqs (n m : Nat) : Nat := seqNum n m

theorem charsVal_step (cs : List Char) (a : Nat) :
    cs.foldl (fun a c => a * 10 + (c.toNat - 48)) a =
      a * 10 ^ cs.length + charsVal cs := by
  induction cs generalizing a with
  | nil => simp [charsVal]
  | cons c t ih =>
    simp only [List.foldl_cons, List.length_cons, charsVal]
    rw [ih, ih (0 * 10 + (c.toNat - 48))]
    ring

theorem charsVal_append (l1 l2 : List Char) :
    charsVal (l1 ++ l2) = charsVal l1 * 10 ^ l2.length + charsVal l2 := by
  unfold charsVal
  rw [List.foldl_append]
  exact charsVal_step l2 _

theorem digitChar_toNat (d : Nat) (h : d < 10) : (digitChar d).toNat = 48 + d := by
  interval_cases d <;> rfl

theorem charsVal_numChars (n : Nat) : charsVal (numChars n) = n := by
  induction n using Nat.strong_induction_on with
  | _ n ih =>
    rw [numChars_eq]
    by_cases h : n < 10
    · simp only [h, if_pos]
      simp [charsVal, digitChar_toNat n h]
    · simp only [h, if_neg, not_false_iff]
      rw [charsVal_append, ih (n / 10) (Nat.div_lt_self (by omega) (by omega))]
      have h10 : n % 10 < 10 := Nat.mod_lt _ (by omega)
      simp [charsVal, digitChar_toNat _ h10]
      omega

theorem charsVal_replicate_zero (k : Nat) (cs : List Char) :
    charsVal (List.replicate k '0' ++ cs) = charsVal cs := by
  rw [charsVal_append]
  have : charsVal (List.replicate k '0') = 0 := by
    induction k with
    | zero => rfl
    | succ j ihj =>
      rw [List.replicate_succ]
      unfold charsVal at ihj ⊢
      simpa using ihj
  rw [this]
  ring

theorem padNum_inj (w a b : Nat) (h : padNum w a = padNum w b) : a = b := by
  have hd : (padNum w a).data = (padNum w b).data := by rw [h]
  simp only [padNum] at hd
  have hv : charsVal (numChars a) = charsVal (numChars b) := by
    rw [← charsVal_replicate_zero (w - (numChars a).length) (numChars a), hd,
      charsVal_replicate_zero]
  rwa [charsVal_numChars, charsVal_numChars] at hv

/-- C2: the record at 1-based sorted position p (1 ≤ p ≤ n) is assigned
sequence index equal to the ceiling of p / max_per_seq, rendered as a
3-digit S-identifier, and frame index ((p-1) mod max_per_seq) + 1;
hence 1 ≤ frame_index ≤ max_per_seq, the sequence sizes sum to n, every
sequence before the last has size exactly max_per_seq, and the last has
size between 1 and max_per_seq. -/
theorem sequence_assignment (n m p : Nat) (hm : 0 < m) (hp : 1 ≤ p) (hpn : p ≤ n) :
    sequence_ids p m =
      ("S" ++ padNum 3 (seqNum p m), padNum 6 (frameNum p m), frameNum p m) ∧
    (seqNum p m : ℤ) = ⌈(p : ℚ) / (m : ℚ)⌉ ∧
    1 ≤ frameNum p m ∧ frameNum p m ≤ m ∧
    (Finset.Icc 1 (numSeqs n m)).sum (fun k => seqSize n m k) = n ∧
    (∀ k, 1 ≤ k → k < numSeqs n m → seqSize n m k = m) ∧
    1 ≤ seqSize n m (numSeqs n m) ∧ seqSize n m (numSeqs n m) ≤ m := by
  have hm' : (0 : ℚ) < (m : ℚ) := by exact_mod_cast hm
  have filter_eq : ∀ k, 1 ≤ k →
      (Finset.Icc 1 n).filter (fun q => seqNum q m = k) =
        Finset.Icc ((k - 1) * m + 1) (min (k * m) n) := by
    intro k hk
    ext q
    simp only [Finset.mem_filter, Finset.mem_Icc, seqNum]
    constructor
    · rintro ⟨⟨hq1, hqn⟩, hdiv⟩
      have hdiv' : (q - 1) / m = k - 1 := by omega
      have h1 : (k - 1) * m ≤ q - 1 := by
        calc (k - 1) * m = (q - 1) / m * m := by rw [hdiv']
        _ ≤ q - 1 := Nat.div_mul_le_self _ _
      have h2 : q - 1 < ((q - 1) / m + 1) * m := by
        have hmod := Nat.mod_lt (q - 1) hm
        have hdm := Nat.div_add_mod (q - 1) m
        calc q - 1 = m * ((q - 1) / m) + (q - 1) % m := hdm.symm
        _ < m * ((q - 1) / m) + m := by omega
        _ = ((q - 1) / m + 1) * m := by ring
      rw [hdiv'] at h2
      have hk1 : (k - 1 + 1) = k := by omega
      rw [hk1] at h2
      exact ⟨by omega, by omega⟩
    · rintro ⟨hlo, hhi⟩
      have hq1 : 1 ≤ q := by
        have : 0 < (k - 1) * m + 1 := by omega
        omega
      have hd : (q - 1) / m = k - 1 := by
        apply Nat.div_eq_of_lt_le
        · omega
        · have hk1 : (k - 1 + 1) * m = k * m := by
            have : k - 1 + 1 = k := by omega
            rw [this]
          rw [hk1]
          omega
      refine ⟨⟨hq1, by omega⟩, by omega⟩
  have size_eq : ∀ k, 1 ≤ k → seqSize n m k = min (k * m) n + 1 - ((k - 1) * m + 1) := by
    intro k hk
    rw [seqSize, filter_eq k hk, Nat.card_Icc]
  have hn1 : 1 ≤ n := le_trans hp hpn
  have hlastlo : (numSeqs n m - 1) * m ≤ n - 1 := by
    have : numSeqs n m - 1 = (n - 1) / m := by simp [numSeqs, seqNum]
    rw [this]
    exact Nat.div_mul_le_self _ _
  have hlasthi : n - 1 < numSeqs n m * m := by
    have hmod := Nat.mod_lt (n - 1) hm
    have hdm := Nat.div_add_mod (n - 1) m
    have hexp : numSeqs n m * m = m * ((n - 1) / m) + m := by
      simp only [numSeqs, seqNum]
      ring
    omega
  refine ⟨rfl, ?_, ?_, ?_, ?_, ?_, ?_, ?_⟩
  · rw [eq_comm, Int.ceil_eq_iff]
    have hdm := Nat.div_add_mod (p - 1) m
    have hmod := Nat.mod_lt (p - 1) hm
    have hnum1 : (p - 1) / m * m < p := by
      have h1 : (p - 1) / m * m ≤ p - 1 := Nat.div_mul_le_self _ _
      omega
    have hnum2 : p ≤ ((p - 1) / m + 1) * m := by
      have hstep : p - 1 < ((p - 1) / m + 1) * m := by
        calc p - 1 = m * ((p - 1) / m) + (p - 1) % m := hdm.symm
        _ < m * ((p - 1) / m) + m := by omega
        _ = ((p - 1) / m + 1) * m := by ring
      omega
    have hseq : seqNum p m = (p - 1) / m + 1 := rfl
    rw [hseq]
    generalize hq : (p - 1) / m = q at hnum1 hnum2
    have hcast : ((((q + 1 : ℕ) : ℤ)) : ℚ) = (q : ℚ) + 1 := by push_cast; ring
    constructor
    · rw [lt_div_iff₀ hm', hcast]
      have hc : (q : ℚ) * m < p := by exact_mod_cast hnum1
      linarith
    · rw [div_le_iff₀ hm', hcast]
      have hc : (p : ℚ) ≤ ((q : ℚ) + 1) * m := by exact_mod_cast hnum2
      linarith
  · simp [frameNum]
  · have := Nat.mod_lt (p - 1) hm
    simp only [frameNum]
    omega
  · rw [eq_comm]
    have hmem : ∀ q ∈ Finset.Icc 1 n, seqNum q m ∈ Finset.Icc 1 (numSeqs n m) := by
      intro q hq
      simp only [Finset.mem_Icc] at hq
      simp only [Finset.mem_Icc, seqNum, numSeqs]
      have hdd : (q - 1) / m ≤ (n - 1) / m := Nat.div_le_div_right (by omega)
      exact ⟨Nat.le_add_left 1 _, Nat.add_le_add_right hdd 1⟩
    have hcard := Finset.card_eq_sum_card_fiberwise hmem
    rw [Nat.card_Icc] at hcard
    simpa [seqSize] using hcard
  · intro k hk1 hklt
    rw [size_eq k hk1]
    have hkm : k * m ≤ n := by
      have hkle : k ≤ (n - 1) / m := by
        simp only [numSeqs, seqNum] at hklt
        omega
      have : k * m ≤ (n - 1) / m * m := Nat.mul_le_mul_right m hkle
      have h2 : (n - 1) / m * m ≤ n - 1 := Nat.div_mul_le_self _ _
      omega
    have hsplit : (k - 1) * m + m = k * m := by
      have h1 : (k - 1) * m = k * m - m := by rw [Nat.sub_one_mul]
      have h2 : m ≤ k * m := by
        calc m = 1 * m := (one_mul m).symm
        _ ≤ k * m := Nat.mul_le_mul_right m hk1
      omega
    rw [min_eq_left hkm]
    omega
  · have hk1 : 1 ≤ numSeqs n m := by simp [numSeqs, seqNum]
    rw [size_eq _ hk1]
    have hmin : min (numSeqs n m * m) n = n := min_eq_right (by omega)
    rw [hmin]
    omega
  · have hk1 : 1 ≤ numSeqs n m := by simp [numSeqs, seqNum]
    rw [size_eq _ hk1]
    have hmin : min (numSeqs n m * m) n = n := min_eq_right (by omega)
    rw [hmin]
    have hsplit : (numSeqs n m - 1) * m + m = numSeqs n m * m := by
      have h1 : (numSeqs n m - 1) * m = numSeqs n m * m - m := by rw [Nat.sub_one_mul]
      have h2 : m ≤ numSeqs n m * m := by
        calc m = 1 * m := (one_mul m).symm
        _ ≤ numSeqs n m * m := Nat.mul_le_mul_right m hk1
      omega
    omega

theorem sequence_assignment_witness :
    0 < 2 ∧ (1 : ℕ) ≤ 3 ∧ 3 ≤ 3 ∧
    sequence_ids 3 2 =
      ("S" ++ padNum 3 (seqNum 3 2), padNum 6 (frameNum 3 2), frameNum 3 2) ∧
    (Finset.Icc 1 (numSeqs 3 2)).sum (fun k => seqSize 3 2 k) = 3 := by
  have h := sequence_assignment 3 2 3 (by decide) (by decide) (by decide)
  exact ⟨by decide, by decide, by decide, h.1, h.2.2.2.2.1⟩

/-- processing.record_sort_key: prefer CSV GPS time, then file mtime.
The Python tuple (group, time, source path); group 0 for records whose
attached pose row has non-null gps_seconds, group 1 otherwise. -/
def record_sort_key (record : Record) : Nat × ℚ × String :=
  match record.csv_pose with
  | Option.some p =>
    match p.gps_seconds with
    | Option.some s => (0, s, record.src)
    | Option.none => (1, record.mtime, record.src)
  | Option.none => (1, record.mtime, record.src)

/-- Python string comparison: lexicographic by code point. -/
def charsLt : List Char → List Char → Bool
  | [], [] => false
  | [], _ :: _ => true
  | _ :: _, [] => false
  | a :: as, b :: bs =>
    if a < b then true
    else if a = b then charsLt as bs
    else false

theorem charsLt_trans : ∀ a b c : List Char,
    charsLt a b = true → charsLt b c = true → charsLt a c = true := by
  intro a
  induction a with
  | nil =>
    intro b c h1 h2
    cases b with
    | nil => simp [charsLt] at h1
    | cons y ys =>
      cases c with
      | nil => simp [charsLt] at h2
      | cons z zs => simp [charsLt]
  | cons x xs ih =>
    intro b c h1 h2
    cases b with
    | nil => simp [charsLt] at h1
    | cons y ys =>
      cases c with
      | nil => simp [charsLt] at h2
      | cons z zs =>
        simp only [charsLt] at h1 h2 ⊢
        by_cases hxy : x < y
        · by_cases hyz : y < z
          · simp [lt_trans hxy hyz]
          · by_cases hyz2 : y = z
            · subst hyz2
              simp [hxy]
            · simp [hyz, hyz2] at h2
        · by_cases hxy2 : x = y
          · subst hxy2
            simp only [hxy, if_neg, not_false_iff, if_pos rfl] at h1
            by_cases hyz : x < z
            · simp [hyz]
            · by_cases hyz2 : x = z
              · subst hyz2
                simp only [hyz, if_neg, not_false_iff, if_pos rfl] at h2 ⊢
                exact ih ys zs h1 h2
              · simp [hyz, hyz2] at h2
          · simp [hxy, hxy2] at h1

theorem charsLt_asymm : ∀ a b : List Char,
    charsLt a b = true → charsLt b a = true → False := by
  intro a
  induction a with
  | nil =>
    intro b h1 h2
    cases b with
    | nil => simp [charsLt] at h1
    | cons y ys => simp [charsLt] at h2
  | cons x xs ih =>
    intro b h1 h2
    cases b with
    | nil => simp [charsLt] at h1
    | cons y ys =>
      simp only [charsLt] at h1 h2
      by_cases hxy : x < y
      · by_cases hyx : y < x
        · exact absurd hyx (not_lt.mpr (le_of_lt hxy))
        · by_cases hyx2 : y = x
          · exact absurd (hyx2 ▸ hxy) (lt_irrefl x)
          · simp [hyx, hyx2] at h2
      · by_cases hxy2 : x = y
        · subst hxy2
          simp only [hxy, if_neg, not_false_iff, if_pos rfl] at h1 h2
          exact ih ys h1 h2
        · simp [hxy, hxy2] at h1

theorem charsLt_total : ∀ a b : List Char,
    charsLt a b = true ∨ a = b ∨ charsLt b a = true := by
  intro a
  induction a with
  | nil =>
    intro b
    cases b with
    | nil => exact Or.inr (Or.inl rfl)
    | cons y ys => exact Or.inl (by simp [charsLt])
  | cons x xs ih =>
    intro b
    cases b with
    | nil => exact Or.inr (Or.inr (by simp [charsLt]))
    | cons y ys =>
      rcases lt_trichotomy x y with hxy | hxy | hxy
      · exact Or.inl (by simp [charsLt, hxy])
      · subst hxy
        rcases ih ys with h | h | h
        · exact Or.inl (by simp [charsLt, h])
        · exact Or.inr (Or.inl (by rw [h]))
        · exact Or.inr (Or.inr (by simp [charsLt, h]))
      · refine Or.inr (Or.inr ?_)
        have hne : ¬(y < x) → y = x → False := fun _ hh => absurd (hh ▸ hxy) (lt_irrefl y)
        simp only [charsLt]
        simp [hxy]

/-- Python tuple comparison on (int, float, str): strict lexicographic,
with strings compared code point by code point. -/
def tupLt (a b : Nat × ℚ × String) : Prop :=
  a.1 < b.1 ∨ (a.1 = b.1 ∧ (a.2.1 < b.2.1 ∨
    (a.2.1 = b.2.1 ∧ charsLt a.2.2.data b.2.2.data = true)))

instance tupLt_decidable : ∀ a b, Decidable (tupLt a b) := fun a b => by
  unfold tupLt
  infer_instance

/-- Non-strict key comparison driving list.sort(key=record_sort_key). -/
def keyLe (a b : Record) : Prop :=
  tupLt (record_sort_key a) (record_sort_key b) ∨
    record_sort_key a = record_sort_key b

instance keyLe_decidable : DecidableRel keyLe := fun a b => by
  unfold keyLe
  infer_instance

theorem tupLt_trans (x y z : Nat × ℚ × String)
    (h1 : tupLt x y) (h2 : tupLt y z) : tupLt x z := by
  obtain ⟨x1, x2, x3⟩ := x
  obtain ⟨y1, y2, y3⟩ := y
  obtain ⟨z1, z2, z3⟩ := z
  simp only [tupLt] at h1 h2 ⊢
  rcases h1 with h1 | ⟨e1, h1⟩
  · rcases h2 with h2 | ⟨e2, _⟩
    · exact Or.inl (lt_trans h1 h2)
    · exact Or.inl (e2 ▸ h1)
  · rcases h2 with h2 | ⟨e2, h2⟩
    · exact Or.inl (e1 ▸ h2)
    · refine Or.inr ⟨e1.trans e2, ?_⟩
      rcases h1 with h1 | ⟨f1, h1⟩
      · rcases h2 with h2 | ⟨f2, _⟩
        · exact Or.inl (lt_trans h1 h2)
        · exact Or.inl (f2 ▸ h1)
      · rcases h2 with h2 | ⟨f2, h2⟩
        · exact Or.inl (f1 ▸ h2)
        · exact Or.inr ⟨f1.trans f2, charsLt_trans _ _ _ h1 h2⟩

theorem tupLt_asymm (x y : Nat × ℚ × String)
    (h1 : tupLt x y) (h2 : tupLt y x) : False := by
  obtain ⟨x1, x2, x3⟩ := x
  obtain ⟨y1, y2, y3⟩ := y
  simp only [tupLt] at h1 h2
  rcases h1 with h1 | ⟨e1, h1⟩ <;> rcases h2 with h2 | ⟨e2, h2⟩
  · omega
  · omega
  · omega
  · rcases h1 with h1 | ⟨f1, h1⟩ <;> rcases h2 with h2 | ⟨f2, h2⟩
    · exact absurd h2 (not_lt.mpr (le_of_lt h1))
    · exact absurd h1 (by rw [f2]; exact lt_irrefl _)
    · exact absurd h2 (by rw [f1]; exact lt_irrefl _)
    · exact charsLt_asymm _ _ h1 h2

theorem tupLt_total (x y : Nat × ℚ × String) :
    tupLt x y ∨ x = y ∨ tupLt y x := by
  obtain ⟨x1, x2, x3⟩ := x
  obtain ⟨y1, y2, y3⟩ := y
  simp only [tupLt, Prod.mk.injEq]
  rcases lt_trichotomy x1 y1 with h1 | h1 | h1
  · exact Or.inl (Or.inl h1)
  · rcases lt_trichotomy x2 y2 with h2 | h2 | h2
    · exact Or.inl (Or.inr ⟨h1, Or.inl h2⟩)
    · rcases charsLt_total x3.data y3.data with h3 | h3 | h3
      · exact Or.inl (Or.inr ⟨h1, Or.inr ⟨h2, h3⟩⟩)
      · have hxy : x3 = y3 := by
          cases x3
          cases y3
          exact congrArg String.mk h3
        exact Or.inr (Or.inl ⟨h1, h2, hxy⟩)
      · exact Or.inr (Or.inr (Or.inr ⟨h1.symm, Or.inr ⟨h2.symm, h3⟩⟩))
    · exact Or.inr (Or.inr (Or.inr ⟨h1.symm, Or.inl h2⟩))
  · exact Or.inr (Or.inr (Or.inl h1))

instance : IsTotal Record keyLe :=
  ⟨fun a b => by
    rcases tupLt_total (record_sort_key a) (record_sort_key b) with h | h | h
    · exact Or.inl (Or.inl h)
    · exact Or.inl (Or.inr h)
    · exact Or.inr (Or.inl h)⟩

instance : IsTrans Record keyLe :=
  ⟨fun a b c h1 h2 => by
    rcases h1 with h1 | h1 <;> rcases h2 with h2 | h2
    · exact Or.inl (tupLt_trans _ _ _ h1 h2)
    · exact Or.inl (h2 ▸ h1)
    · exact Or.inl (h1 ▸ h2)
    · exact Or.inr (h1.trans h2)⟩

theorem keyLe_antisymm_key (a b : Record) (h1 : keyLe a b) (h2 : keyLe b a) :
    record_sort_key a = record_sort_key b := by
  rcases h1 with h1 | h1
  · rcases h2 with h2 | h2
    · exact (tupLt_asymm _ _ h1 h2).elim
    · exact h2.symm
  · exact h1

/-- records.sort(key=record_sort_key): Python list.sort is a stable
sort by the key, whose output is uniquely determined by the key on any
input; insertion sort inserting later elements after key-equal earlier
ones realises it. -/
def sortRecords (records : List Record) : List Record :=
  List.insertionSort keyLe records

theorem sorted_eq_of_perm (l1 : List Record) : ∀ l2 : List Record, l1.Perm l2 →
    List.Sorted keyLe l1 → List.Sorted keyLe l2 →
    (∀ a ∈ l1, ∀ b ∈ l1, record_sort_key a = record_sort_key b → a = b) →
    l1 = l2 := by
  induction l1 with
  | nil =>
    intro l2 hp _ _ _
    exact (hp.nil_eq).symm ▸ rfl
  | cons a t1 ih =>
    intro l2 hp hs1 hs2 hinj
    cases l2 with
    | nil => exact absurd hp.eq_nil (by simp)
    | cons b t2 =>
      have hain : a ∈ b :: t2 := hp.subset (List.mem_cons_self a t1)
      have hbin : b ∈ a :: t1 := hp.symm.subset (List.mem_cons_self b t2)
      have hab : a = b := by
        rcases List.mem_cons.mp hain with h | ha2
        · exact h
        · rcases List.mem_cons.mp hbin with h | hb1
          · exact h.symm
          · have h1 : keyLe a b := (List.sorted_cons.mp hs1).1 b hb1
            have h2 : keyLe b a := (List.sorted_cons.mp hs2).1 a ha2
            exact hinj a (List.mem_cons_self a t1) b hbin
              (keyLe_antisymm_key a b h1 h2)
      subst hab
      have hperm : t1.Perm t2 := hp.cons_inv
      have htail : t1 = t2 := by
        apply ih t2 hperm (List.sorted_cons.mp hs1).2 (List.sorted_cons.mp hs2).2
        intro x hx y hy hxy
        exact hinj x (List.mem_cons_of_mem a hx) y (List.mem_cons_of_mem a hy) hxy
      rw [htail]

/-- C3: the sort key orders records with a pose epoch first (by epoch
value), the rest after (by modification time), ties broken by source
path; the comparison is total and key-equal records share their source
path, so on a record list with pairwise distinct source paths the
sorted order is identical for every input iteration order. -/
theorem deterministic_sort (l1 l2 : List Record) (hp : l1.Perm l2)
    (hnd : (l1.map Record.src).Nodup) :
    sortRecords l1 = sortRecords l2 ∧
    (∀ a b : Record, keyLe a b ∨ keyLe b a) ∧
    (∀ a b : Record, record_sort_key a = record_sort_key b → a.src = b.src) ∧
    (∀ (r : Record) (p : PoseRow) (s : ℚ), r.csv_pose = Option.some p →
       p.gps_seconds = Option.some s → record_sort_key r = (0, s, r.src)) ∧
    (∀ r : Record, (∀ p, r.csv_pose = Option.some p → p.gps_seconds = Option.none) →
       record_sort_key r = (1, r.mtime, r.src)) ∧
    (∀ (a b : Record) (p : PoseRow) (s : ℚ), a.csv_pose = Option.some p →
       p.gps_seconds = Option.some s →
       (∀ q, b.csv_pose = Option.some q → q.gps_seconds = Option.none) →
       tupLt (record_sort_key a) (record_sort_key b)) := by
  have hsrc : ∀ r : Record, (record_sort_key r).2.2 = r.src := by
    intro r
    unfold record_sort_key
    cases hr : r.csv_pose with
    | none => rfl
    | some p =>
      cases hs : p.gps_seconds with
      | none => simp [hs]
      | some s => simp [hs]
  have hkey_src : ∀ a b : Record,
      record_sort_key a = record_sort_key b → a.src = b.src := by
    intro a b h
    have h3 : (record_sort_key a).2.2 = (record_sort_key b).2.2 := by rw [h]
    rw [hsrc a, hsrc b] at h3
    exact h3
  have hcase0 : ∀ (r : Record) (p : PoseRow) (s : ℚ), r.csv_pose = Option.some p →
      p.gps_seconds = Option.some s → record_sort_key r = (0, s, r.src) := by
    intro r p s hr hs
    unfold record_sort_key
    rw [hr]
    simp [hs]
  have hcase1 : ∀ r : Record,
      (∀ p, r.csv_pose = Option.some p → p.gps_seconds = Option.none) →
      record_sort_key r = (1, r.mtime, r.src) := by
    intro r hnone
    unfold record_sort_key
    cases hr : r.csv_pose with
    | none => rfl
    | some p =>
      simp [hnone p hr]
  refine ⟨?_, fun a b => IsTotal.total a b, hkey_src, hcase0, hcase1, ?_⟩
  · have hmemeq : ∀ x, x ∈ sortRecords l1 ↔ x ∈ l1 := fun x =>
      (List.perm_insertionSort keyLe l1).mem_iff
    have hinj1 : ∀ a ∈ l1, ∀ b ∈ l1, record_sort_key a = record_sort_key b →
        a = b := by
      intro a ha b hb hk
      exact List.inj_on_of_nodup_map hnd ha hb (hkey_src a b hk)
    apply sorted_eq_of_perm
    · exact ((List.perm_insertionSort keyLe l1).trans hp).trans
        (List.perm_insertionSort keyLe l2).symm
    · exact List.sorted_insertionSort keyLe l1
    · exact List.sorted_insertionSort keyLe l2
    · intro a ha b hb hk
      exact hinj1 a ((hmemeq a).mp ha) b ((hmemeq b).mp hb) hk
  · intro a b p s hap hs hbn
    rw [hcase0 a p s hap hs, hcase1 b hbn]
    exact Or.inl (by norm_num)

/-- Concrete records exercising deterministic_sort: distinct sources,
one pose-timed record and one mtime record. -/
def c3recA : Record :=
  ⟨"a.jpg", ".jpg", "a.jpg", "20240101", [], 5, Option.none⟩

/-- Second concrete record for deterministic_sort. -/
def c3recB : Record :=
  ⟨"b.jpg", ".jpg", "b.jpg", "20240101", [], 1,
   Option.some ⟨Option.some "b", Option.some 7, Option.none, Option.none,
     Option.none, Option.none, Option.none, Option.none, Option.none⟩⟩

theorem deterministic_sort_witness :
    List.Perm [c3recA, c3recB] [c3recB, c3recA] ∧
    ([c3recA, c3recB].map Record.src).Nodup ∧
    sortRecords [c3recA, c3recB] = sortRecords [c3recB, c3recA] := by
  have hperm : List.Perm [c3recA, c3recB] [c3recB, c3recA] :=
    List.Perm.swap c3recB c3recA []
  have hnd : ([c3recA, c3recB].map Record.src).Nodup := by
    simp [c3recA, c3recB]
  exact ⟨hperm, hnd,
    (deterministic_sort [c3recA, c3recB] [c3recB, c3recA] hperm hnd).1⟩

/-- The acquisition id of a record in one grouping run:
"date-region" (processing.process_records_by_acquisition). -/
def acquisitionIdOf (r : Record) (region : String) : String :=
  r.acquisition_date ++ "-" ++ region

/-- grouped.setdefault(key, []).append(x): append to the group of the
key, creating the group at the end on first sight (Python dicts
preserve insertion order). -/
def addToGroup {α : Type} (groups : List (String × List α)) (key : String) (x : α) :
    List (String × List α) :=
  match groups with
  | [] => [(key, [x])]
  | (k, xs) :: rest =>
    if k = key then (k, xs ++ [x]) :: rest else (k, xs) :: addToGroup rest key x

/-- The grouping loop of processing.process_records_by_acquisition. -/
def groupRecords (records : List Record) (region : String) :
    List (String × List Record) :=
  records.foldl (fun g r => addToGroup g (acquisitionIdOf r region) r) []

/-- The acquisition keys of a record list, in first-seen order. -/
def firstSeenKeys (records : List Record) (region : String) : List String :=
  records.foldl
    (fun acc r =>
      let k := acquisitionIdOf r region
      if k ∈ acc then acc else acc ++ [k]) []

theorem addToGroup_keys {α : Type} (g : List (String × List α)) (key : String) (x : α) :
    (addToGroup g key x).map Prod.fst =
      if key ∈ g.map Prod.fst then g.map Prod.fst else g.map Prod.fst ++ [key] := by
  induction g with
  | nil => simp [addToGroup]
  | cons kv rest ih =>
    obtain ⟨k, xs⟩ := kv
    by_cases h : k = key
    · subst h
      simp [addToGroup]
    · simp only [addToGroup, if_neg h, List.map_cons, List.mem_cons]
      rw [ih]
      by_cases hmem : key ∈ rest.map Prod.fst
      · simp [hmem, Ne.symm h]
      · simp [hmem, Ne.symm h]

theorem addToGroup_join {α : Type} (g : List (String × List α)) (key : String) (x : α) :
    ((addToGroup g key x).map Prod.snd).flatten.Perm
      ((g.map Prod.snd).flatten ++ [x]) := by
  induction g with
  | nil => simp [addToGroup]
  | cons kv rest ih =>
    obtain ⟨k, xs⟩ := kv
    by_cases h : k = key
    · subst h
      rw [show addToGroup ((k, xs) :: rest) k x = (k, xs ++ [x]) :: rest from by
        simp [addToGroup]]
      simp only [List.map_cons, List.flatten_cons]
      rw [List.append_assoc, List.append_assoc]
      exact (List.perm_append_comm).append_left xs
    · rw [show addToGroup ((k, xs) :: rest) key x = (k, xs) :: addToGroup rest key x
        from by simp [addToGroup, h]]
      simp only [List.map_cons, List.flatten_cons]
      refine (ih.append_left xs).trans ?_
      rw [List.append_assoc]

theorem addToGroup_prop {α : Type} (P : String → α → Prop)
    (g : List (String × List α)) (key : String) (x : α)
    (hg : ∀ kv ∈ g, ∀ y ∈ kv.2, P kv.1 y) (hx : P key x) :
    ∀ kv ∈ addToGroup g key x, ∀ y ∈ kv.2, P kv.1 y := by
  induction g with
  | nil =>
    intro kv hkv y hy
    simp only [addToGroup, List.mem_singleton] at hkv
    subst hkv
    simp only [List.mem_singleton] at hy
    subst hy
    exact hx
  | cons kv0 rest ih =>
    obtain ⟨k, xs⟩ := kv0
    have hhead : ∀ y ∈ xs, P k y := hg (k, xs) (List.mem_cons_self _ _)
    have hrest : ∀ kv ∈ rest, ∀ y ∈ kv.2, P kv.1 y :=
      fun kv hkv => hg kv (List.mem_cons_of_mem _ hkv)
    by_cases h : k = key
    · subst h
      intro kv hkv y hy
      rw [show addToGroup ((k, xs) :: rest) k x = (k, xs ++ [x]) :: rest from by
        simp [addToGroup]] at hkv
      rcases List.mem_cons.mp hkv with rfl | hkv2
      · show P k y
        rcases List.mem_append.mp hy with hy2 | hy2
        · exact hhead y hy2
        · rw [List.mem_singleton.mp hy2]
          exact hx
      · exact hrest kv hkv2 y hy
    · intro kv hkv y hy
      rw [show addToGroup ((k, xs) :: rest) key x = (k, xs) :: addToGroup rest key x
        from by simp [addToGroup, h]] at hkv
      rcases List.mem_cons.mp hkv with rfl | hkv2
      · exact hhead y hy
      · exact ih hrest kv hkv2 y hy

theorem groupFold_join (region : String) (l : List Record) :
    ∀ g0 : List (String × List Record),
    (((l.foldl (fun g r => addToGroup g (acquisitionIdOf r region) r) g0).map
        Prod.snd).flatten).Perm ((g0.map Prod.snd).flatten ++ l) := by
  induction l with
  | nil => intro g0; simp
  | cons r t ih =>
    intro g0
    simp only [List.foldl_cons]
    refine (ih (addToGroup g0 (acquisitionIdOf r region) r)).trans ?_
    have h1 := (addToGroup_join g0 (acquisitionIdOf r region) r).append_right t
    refine h1.trans ?_
    rw [List.append_assoc]
    exact List.Perm.refl _

theorem groupFold_keys (region : String) (l : List Record) :
    ∀ g0 : List (String × List Record),
    (l.foldl (fun g r => addToGroup g (acquisitionIdOf r region) r) g0).map Prod.fst =
      l.foldl (fun acc r =>
        let k := acquisitionIdOf r region
        if k ∈ acc then acc else acc ++ [k]) (g0.map Prod.fst) := by
  induction l with
  | nil => intro g0; rfl
  | cons r t ih =>
    intro g0
    simp only [List.foldl_cons]
    rw [ih (addToGroup g0 (acquisitionIdOf r region) r), addToGroup_keys]

theorem groupFold_nodup (region : String) (l : List Record) :
    ∀ g0 : List (String × List Record), (g0.map Prod.fst).Nodup →
    ((l.foldl (fun g r => addToGroup g (acquisitionIdOf r region) r) g0).map
      Prod.fst).Nodup := by
  induction l with
  | nil => intro g0 h; exact h
  | cons r t ih =>
    intro g0 h
    simp only [List.foldl_cons]
    apply ih
    rw [addToGroup_keys]
    by_cases hmem : acquisitionIdOf r region ∈ g0.map Prod.fst
    · simpa [hmem] using h
    · simp only [hmem, if_neg, not_false_iff]
      simp [List.nodup_append, h, hmem]

theorem groupFold_prop (region : String) (l : List Record) :
    ∀ g0 : List (String × List Record),
    (∀ kv ∈ g0, ∀ r ∈ kv.2, acquisitionIdOf r region = kv.1) →
    ∀ kv ∈ l.foldl (fun g r => addToGroup g (acquisitionIdOf r region) r) g0,
      ∀ r ∈ kv.2, acquisitionIdOf r region = kv.1 := by
  induction l with
  | nil => intro g0 h; exact h
  | cons r t ih =>
    intro g0 h
    simp only [List.foldl_cons]
    exact ih _ (addToGroup_prop (fun key rec2 => acquisitionIdOf rec2 region = key)
      g0 (acquisitionIdOf r region) r h rfl)

/-- C4: grouping by acquisition partitions the fused records into
groups keyed by date-region: the concatenation of the groups is a
permutation of the input (no record dropped or duplicated — in
particular the total count is preserved), keys are pairwise distinct
and listed in first-seen order, and every record sits in the group of
its own acquisition id. -/
theorem grouping_partitions (records : List Record) (region : String) :
    (((groupRecords records region).map Prod.snd).flatten).Perm records ∧
    ((groupRecords records region).map Prod.fst).Nodup ∧
    (groupRecords records region).map Prod.fst = firstSeenKeys records region ∧
    (∀ kv ∈ groupRecords records region, ∀ r ∈ kv.2,
       acquisitionIdOf r region = kv.1) ∧
    ((groupRecords records region).map (fun kv => kv.2.length)).sum =
      records.length := by
  have hjoin := groupFold_join region records []
  simp only [List.map_nil, List.flatten_nil, List.nil_append] at hjoin
  refine ⟨hjoin, ?_, ?_, ?_, ?_⟩
  · exact groupFold_nodup region records [] (by simp)
  · exact groupFold_keys region records []
  · exact groupFold_prop region records [] (by simp)
  · have hlen : (((groupRecords records region).map Prod.snd).flatten).length =
        records.length := hjoin.length_eq
    rw [List.length_flatten] at hlen
    simpa [Function.comp] using hlen

/-- Days in a month of the proleptic Gregorian calendar, as validated
by Python datetime. -/
def daysInMonth (y m : Nat) : Nat :=
  if m = 2 then
    if (y % 4 = 0 ∧ y % 100 ≠ 0) ∨ y % 400 = 0 then 29 else 28
  else if m = 4 ∨ m = 6 ∨ m = 9 ∨ m = 11 then 30
  else 31

/-- A calendar date accepted by the datetime constructor
(year 1..9999 given 4-digit rendering, month 1..12, day in month). -/
def validDate (y m d : Nat) : Bool :=
  decide (1 ≤ y) && decide (1 ≤ m) && decide (m ≤ 12) && decide (1 ≤ d) &&
    decide (d ≤ daysInMonth y m)

/-- Python text.split(c) for a single-character separator: the
separator-free chunks, keeping empty chunks ("".split(c) is [""]). -/
def splitChar (c : Char) : List Char → List (List Char)
  | [] => [[]]
  | x :: rest =>
    let r := splitChar c rest
    if x = c then [] :: r
    else
      match r with
      | [] => [[x]]
      | h :: t => (x :: h) :: t

/-- Python str.strip() on text whose control characters were already
removed: drop spaces from both ends. -/
def trimChars (cs : List Char) : List Char :=
  ((cs.dropWhile (fun c => c = ' ')).reverse.dropWhile (fun c => c = ' ')).reverse

/-- One strptime numeric field: an all-digit token whose length lies
in the given range (the regexes of %Y, %m, %d). -/
def digitField (cs : List Char) (lo hi : Nat) : Option Nat :=
  if lo ≤ cs.length ∧ cs.length ≤ hi ∧ cs.all Char.isDigit then
    Option.some (charsVal cs)
  else Option.none

/-- datetime.strptime(text, fmt) for the separator formats
("%Y:%m:%d" and "%Y-%m-%d"): exactly three separator-joined fields,
a 4-digit year and 1-2 digit month/day, then calendar validation. -/
def parseSepDate (text : List Char) (sep : Char) : Option (Nat × Nat × Nat) :=
  match splitChar sep text with
  | [ys, ms, ds] =>
    match digitField ys 4 4, digitField ms 1 2, digitField ds 1 2 with
    | Option.some y, Option.some m, Option.some d =>
      if validDate y m d then Option.some (y, m, d) else Option.none
    | _, _, _ => Option.none
  | _ => Option.none

/-- datetime.strptime(text, "%Y%m%d"): an all-digit string of 6 to 8
characters, split greedily into a 4-digit year and 1-2 digit month and
day (no re-split on validation failure), then calendar validation. -/
def parseCompactDate (text : List Char) : Option (Nat × Nat × Nat) :=
  if text.all Char.isDigit then
    if text.length = 8 ∨ text.length = 7 then
      let y := charsVal (text.take 4)
      let m := charsVal ((text.drop 4).take 2)
      let d := charsVal (text.drop 6)
      if validDate y m d then Option.some (y, m, d) else Option.none
    else if text.length = 6 then
      let y := charsVal (text.take 4)
      let m := charsVal ((text.drop 4).take 1)
      let d := charsVal (text.drop 5)
      if validDate y m d then Option.some (y, m, d) else Option.none
    else Option.none
  else Option.none

/-- strftime("%Y%m%d") on a parsed date (the year is 4-digit by
construction, month and day zero-padded to 2). -/
def formatDate8 (y m d : Nat) : String :=
  padNum 4 y ++ padNum 2 m ++ padNum 2 d

/-- common.decode_exif_text on a string value: remove control
characters anywhere, then strip surrounding whitespace. -/
def decode_clean (s : String) : List Char :=
  trimChars (s.data.filter
    (fun c => decide (32 ≤ c.toNat) && decide (c.toNat ≠ 127)))

/-- common.parse_exif_date on a string value: clean the text, then try
the formats %Y:%m:%d, %Y-%m-%d, %Y%m%d in order, rendering a match as
an 8-digit code; None when nothing matches or the text is empty. -/
def parse_exif_date (s : String) : Option String :=
  let text := decode_clean s
  if text.isEmpty then Option.none
  else
    match parseSepDate text ':' with
    | Option.some (y, m, d) => Option.some (formatDate8 y m d)
    | Option.none =>
      match parseSepDate text '-' with
      | Option.some (y, m, d) => Option.some (formatDate8 y m d)
      | Option.none =>
        match parseCompactDate text with
        | Option.some (y, m, d) => Option.some (formatDate8 y m d)
        | Option.none => Option.none

/-- The calendar-date portion of a timestamp:
str(ts).split("T")[0].split(" ")[0]. -/
def datePortion (ts : String) : String :=
  String.mk (((splitChar ' ' (((splitChar 'T' ts.data).headD []))).headD []))

/-- processing.choose_acquisition_date: a truthy CSV timestamp whose
calendar-date portion parses validly overrides the default date; a
missing, empty or unparsable timestamp keeps the default. -/
def choose_acquisition_date (default_date : String) (csv_pose : Option PoseRow) :
    String :=
  match csv_pose with
  | Option.none => default_date
  | Option.some p =>
    match p.timestamp with
    | Option.none => default_date
    | Option.some ts =>
      if ts = "" then default_date
      else
        match parse_exif_date (datePortion ts) with
        | Option.some d => d
        | Option.none => default_date

/-- Python "gps_date_code or dt_date_code" on optional date codes
(an empty string is falsy). -/
def pyOrOpt (a b : Option String) : Option String :=
  match a with
  | Option.some s => if s = "" then b else Option.some s
  | Option.none => b

/-- The date fallback chain ending exif_utils.extract_exif_metadata:
the embedded GPS date code, else the datetime-derived code; when the
candidate is missing or not an 8-digit number, the UTC mtime code. -/
def extract_date_code (gps_date_code dt_date_code : Option String)
    (mtime_code : String) : String :=
  match pyOrOpt gps_date_code dt_date_code with
  | Option.some s =>
    if s.length = 8 && s.data.all Char.isDigit then s else mtime_code
  | Option.none => mtime_code

/-- The acquisition date the pipeline gives a fused record:
build_records applies choose_acquisition_date to the date that
extract_exif_metadata derived.  cli.build_plans computes a folder-name
date into the acquisition plan, but no caller passes it to
build_records, so the folder_date argument is unused by the code. -/
def pipeline_record_date (folder_date : Option String)
    (gps_date_code dt_date_code : Option String) (mtime_code : String)
    (pose : Option PoseRow) : String :=
  choose_acquisition_date (extract_date_code gps_date_code dt_date_code mtime_code)
    pose

/-- The resolution order stated by the claim, modelled from the claim
for comparison: the caller-supplied folder-name date when one exists,
else the embedded chain, then the pose override. -/
def spec_record_date (folder_date : Option String)
    (gps_date_code dt_date_code : Option String) (mtime_code : String)
    (pose : Option PoseRow) : String :=
  let base := match folder_date with
    | Option.some f => f
    | Option.none => extract_date_code gps_date_code dt_date_code mtime_code
  choose_acquisition_date base pose

/-- C5 counterexample: a record in a folder carrying the 8-digit date
20200101 whose embedded metadata derives 20210505 (no pose data) gets
acquisition date 20210505 from the code, not the folder date the claim
requires: the caller-computed folder date is never consulted. -/
theorem acquisition_date_folder_ignored :
    pipeline_record_date (Option.some "20200101") (Option.some "20210505")
        Option.none "20190101" Option.none = "20210505" ∧
    spec_record_date (Option.some "20200101") (Option.some "20210505")
        Option.none "20190101" Option.none = "20200101" ∧
    pipeline_record_date (Option.some "20200101") (Option.some "20210505")
        Option.none "20190101" Option.none ≠
      spec_record_date (Option.some "20200101") (Option.some "20210505")
        Option.none "20190101" Option.none := by
  refine ⟨by decide, by decide, by decide⟩

/-- C5 amended: the acquisition date of a fused record ignores the
caller-computed folder-name date entirely; it is the embedded metadata
date (GPS date code, else datetime-derived code) when that is an
8-digit number, else the mtime code, and an attached pose timestamp
whose calendar-date portion parses validly overrides this candidate,
while a missing, empty or malformed pose timestamp leaves it. -/
theorem acquisition_date_resolution (folder1 folder2 gps dt : Option String)
    (mt : String) (pose : Option PoseRow) :
    pipeline_record_date folder1 gps dt mt pose =
      pipeline_record_date folder2 gps dt mt pose ∧
    (pose = Option.none →
      pipeline_record_date folder1 gps dt mt pose = extract_date_code gps dt mt) ∧
    (∀ p, pose = Option.some p → p.timestamp = Option.none →
      pipeline_record_date folder1 gps dt mt pose = extract_date_code gps dt mt) ∧
    (∀ p ts c, pose = Option.some p → p.timestamp = Option.some ts → ts ≠ "" →
      parse_exif_date (datePortion ts) = Option.some c →
      pipeline_record_date folder1 gps dt mt pose = c) ∧
    (∀ p ts, pose = Option.some p → p.timestamp = Option.some ts →
      parse_exif_date (datePortion ts) = Option.none →
      pipeline_record_date folder1 gps dt mt pose = extract_date_code gps dt mt) ∧
    (∀ s, pyOrOpt gps dt = Option.some s → s.length = 8 →
      s.data.all Char.isDigit = true → extract_date_code gps dt mt = s) ∧
    (pyOrOpt gps dt = Option.none → extract_date_code gps dt mt = mt) := by
  refine ⟨rfl, ?_, ?_, ?_, ?_, ?_, ?_⟩
  · intro h
    rw [pipeline_record_date, h]
    rfl
  · intro p hp hts
    rw [pipeline_record_date, hp, choose_acquisition_date, hts]
  · intro p ts c hp hts hne hparse
    rw [pipeline_record_date, hp, choose_acquisition_date, hts]
    simp [hne, hparse]
  · intro p ts hp hts hparse
    rw [pipeline_record_date, hp, choose_acquisition_date, hts]
    by_cases hne : ts = ""
    · simp [hne]
    · simp [hne, hparse]
  · intro s hor hlen hdig
    rw [extract_date_code, hor]
    simp [hlen, hdig]
  · intro hor
    rw [extract_date_code, hor]

/-- Concrete pose row exercising the date override. -/
def c5pose : PoseRow :=
  ⟨Option.some "a", Option.some 100, Option.some "2024-01-02T03:04:05Z",
   Option.none, Option.none, Option.none, Option.none, Option.none, Option.none⟩

theorem acquisition_date_resolution_witness :
    c5pose.timestamp = Option.some "2024-01-02T03:04:05Z" ∧
    ("2024-01-02T03:04:05Z" : String) ≠ "" ∧
    parse_exif_date (datePortion "2024-01-02T03:04:05Z") =
      Option.some "20240102" ∧
    pipeline_record_date (Option.some "20200101") (Option.some "20210505")
      Option.none "20190101" (Option.some c5pose) = "20240102" := by
  refine ⟨rfl, by decide, by decide, ?_⟩
  exact (acquisition_date_resolution (Option.some "20200101")
      (Option.some "20200101") (Option.some "20210505") Option.none "20190101"
      (Option.some c5pose)).2.2.2.1 c5pose "2024-01-02T03:04:05Z" "20240102"
    rfl rfl (by decide) (by decide)

/-- Python str.strip() whitespace characters. -/
def isPySpace (c : Char) : Bool :=
  c = ' ' ∨ c = '\t' ∨ c = '\n' ∨ c = '\r' ∨ c.toNat = 11 ∨ c.toNat = 12

/-- Strip whitespace from both ends (Python str.strip()). -/
def trimWs (cs : List Char) : List Char :=
  ((cs.dropWhile isPySpace).reverse.dropWhile isPySpace).reverse

/-- An all-digit token parsed as a natural number. -/
def parseDigits (cs : List Char) : Option Nat :=
  if cs ≠ [] ∧ cs.all Char.isDigit then Option.some (charsVal cs) else Option.none

/-- A decimal integer with optional sign (float exponent field). -/
def parseSignedInt (cs : List Char) : Option ℤ :=
  match cs with
  | '+' :: rest => (parseDigits rest).map Int.ofNat
  | '-' :: rest => (parseDigits rest).map (fun n => -(n : ℤ))
  | _ => (parseDigits cs).map Int.ofNat

/-- A float mantissa: digits, digits.digits, digits. or .digits. -/
def parseMantissa (cs : List Char) : Option ℚ :=
  match splitChar '.' cs with
  | [intPart, fracPart] =>
    if intPart = [] ∧ fracPart = [] then Option.none
    else if intPart.all Char.isDigit ∧ fracPart.all Char.isDigit then
      Option.some ((charsVal intPart : ℚ) +
        (charsVal fracPart : ℚ) / ((10 : ℚ) ^ fracPart.length))
    else Option.none
  | [whole] => (parseDigits whole).map (fun n => (n : ℚ))
  | _ => Option.none

/-- The float literal grammar accepted by Python float() on the texts
reaching common.parse_float: optional sign, mantissa, optional
exponent.  The special literals inf and nan and digit underscores have
no rational value and never occur in the modelled fields. -/
def parseFloatCore (cs : List Char) : Option ℚ :=
  let signed : ℚ × List Char :=
    match cs with
    | '+' :: r => (1, r)
    | '-' :: r => (-1, r)
    | r => (1, r)
  let body := signed.2.map (fun c => if c = 'E' then 'e' else c)
  match splitChar 'e' body with
  | [mant] => (parseMantissa mant).map (fun m => signed.1 * m)
  | [mant, ex] =>
    match parseMantissa mant, parseSignedInt ex with
    | Option.some m, Option.some e =>
      Option.some (signed.1 * m * (10 : ℚ) ^ e)
    | _, _ => Option.none
  | _ => Option.none

/-- The string branch of common.parse_float: strip, reject empty,
replace comma by dot, parse as float literal. -/
def parseFloatText (s : String) : Option ℚ :=
  let t := trimWs s.data
  if t.isEmpty then Option.none
  else parseFloatCore (t.map (fun c => if c = ',' then '.' else c))

/-- common.parse_float: None for None, numbers pass through (float()
on a finite machine float is the identity on the carried value),
strings via the float literal grammar; dict/list values (through
str()) never parse as float literals. -/
def parse_float : PyVal → Option ℚ
  | .null => Option.none
  | .num q => Option.some q
  | .str s => parseFloatText s
  | _ => Option.none

/-- processing.build_geojson_track: the GeoJSON LineString payload of
a sequence trajectory, None when fewer than 2 rows carry both
coordinates.  Altitude is attached to every coordinate exactly when
every collected position parsed an altitude. -/
def build_geojson_track (rows : List TrajRow)
    (acquisition_id sequence_id sensor_id : String) : Option PyVal :=
  let positions := rows.filterMap (fun row =>
    match parse_float row.gps_latitude, parse_float row.gps_longitude with
    | Option.some lat, Option.some lon =>
      Option.some (lon, lat, parse_float row.gps_altitude_m)
    | _, _ => Option.none)
  if positions.length < 2 then Option.none
  else
    let alt_count := (positions.filter (fun p => p.2.2.isSome)).length
    let include_alt := decide (alt_count = positions.length)
    let coordinates := positions.map (fun p =>
      match include_alt, p.2.2 with
      | true, Option.some a => PyVal.list [.num p.1, .num p.2.1, .num a]
      | _, _ => PyVal.list [.num p.1, .num p.2.1])
    let properties0 : List (String × PyVal) := [
      ("acquisition_id", .str acquisition_id),
      ("sequence_id", .str sequence_id),
      ("sensor_id", .str sensor_id),
      ("point_count", .num coordinates.length)]
    let properties := if include_alt then
        properties0 ++ [("altitude_units", .str "meters")]
      else properties0
    Option.some (.dict [
      ("type", .str "FeatureCollection"),
      ("features", .list [PyVal.dict [
        ("type", .str "Feature"),
        ("properties", .dict properties),
        ("geometry", .dict [
          ("type", .str "LineString"),
          ("coordinates", .list coordinates)])]])])

/-- constants.POSE_DATA_FIELDS. -/
def POSE_DATA_FIELDS : List String :=
  ["timestamp", "gps_latitude", "gps_longitude", "gps_altitude_m",
   "heading_deg", "pitch_deg", "roll_deg"]

/-- entry.get(key) on a trajectory row dict. -/
def rowGet (r : TrajRow) (key : String) : PyVal :=
  if key = "timestamp" then r.timestamp
  else if key = "gps_latitude" then r.gps_latitude
  else if key = "gps_longitude" then r.gps_longitude
  else if key = "gps_altitude_m" then r.gps_altitude_m
  else if key = "heading_deg" then r.heading_deg
  else if key = "pitch_deg" then r.pitch_deg
  else if key = "roll_deg" then r.roll_deg
  else .null

/-- Is the value Python None. -/
def isNullVal : PyVal → Bool
  | .null => true
  | _ => false

/-- Does the value equal the Python empty string. -/
def isEmptyStrVal : PyVal → Bool
  | .str s => s = ""
  | _ => false

/-- processing.pose_has_data: some pose field of the row is neither
None nor the empty string. -/
def pose_has_data (entry : TrajRow) : Bool :=
  POSE_DATA_FIELDS.any fun key =>
    !(isNullVal (rowGet entry key)) && !(isEmptyStrVal (rowGet entry key))

/-- The pose/trajectory accumulator state of processing.process_acquisition:
poses_by_sequence (a dict of row lists in insertion order) and the
sequences_with_pose set. -/
structure AcqPoseState where
  poses_by_sequence : List (String × List TrajRow)
  sequences_with_pose : List String

/-- Python set.add: record the element once. -/
def insertIfAbsent (l : List String) (s : String) : List String :=
  if s ∈ l then l else l ++ [s]

/-- The per-record loop body chain of processing.process_acquisition
restricted to its pose accumulation: sequence ids for the 1-based
index, output base name, pose entry, setdefault-append, set marking. -/
def acqPoseLoop (acquisition_id sensor_id : String) (m : Nat) :
    Nat → List Record → AcqPoseState → AcqPoseState
  | _, [], st => st
  | idx, info :: rest, st =>
    let ids := sequence_ids idx m
    let sequence_id := ids.1
    let frame_id := ids.2.1
    let frame_index := ids.2.2
    let new_base :=
      acquisition_id ++ "_" ++ sequence_id ++ "_" ++ sensor_id ++ "_" ++ frame_id
    let image_name := new_base ++ info.ext
    let entry := build_pose_entry info frame_index image_name
    let poses := addToGroup st.poses_by_sequence sequence_id entry
    let withpose :=
      if pose_has_data entry then
        insertIfAbsent st.sequences_with_pose sequence_id
      else st.sequences_with_pose
    acqPoseLoop acquisition_id sensor_id m (idx + 1) rest ⟨poses, withpose⟩

/-- The pose accumulation of processing.process_acquisition: sort the
records, then run the loop from index 1 on empty accumulators. -/
def process_acquisition_poses (acquisition_id sensor_id : String) (m : Nat)
    (records : List Record) : AcqPoseState :=
  acqPoseLoop acquisition_id sensor_id m 1 (sortRecords records) ⟨[], []⟩

/-- The sequence ids whose trajectory CSV process_acquisition writes:
accumulated sequences that were marked as having pose data. -/
def trajectory_csv_sequences (st : AcqPoseState) : List String :=
  (st.poses_by_sequence.filter
    (fun kv => decide (kv.1 ∈ st.sequences_with_pose))).map Prod.fst

/-- The sequence ids whose GeoJSON track process_acquisition writes:
trajectory CSV written and build_geojson_track returned a payload. -/
def geojson_sequences (st : AcqPoseState) (acquisition_id sensor_id : String) :
    List String :=
  (st.poses_by_sequence.filter
    (fun kv => decide (kv.1 ∈ st.sequences_with_pose) &&
      (build_geojson_track kv.2 acquisition_id kv.1 sensor_id).isSome)).map
    Prod.fst

/-- The row list of a key in a grouped accumulator (first binding). -/
def groupRows {α : Type} : List (String × List α) → String → List α
  | [], _ => []
  | (k, xs) :: rest, key => if k = key then xs else groupRows rest key

theorem groupRows_addToGroup_self {α : Type} (g : List (String × List α))
    (key : String) (x : α) :
    groupRows (addToGroup g key x) key = groupRows g key ++ [x] := by
  induction g with
  | nil => simp [addToGroup, groupRows]
  | cons kv rest ih =>
    obtain ⟨k, xs⟩ := kv
    by_cases h : k = key
    · subst h
      simp [addToGroup, groupRows]
    · simp [addToGroup, groupRows, h, ih]

theorem groupRows_addToGroup_ne {α : Type} (g : List (String × List α))
    (key key' : String) (x : α) (h : key' ≠ key) :
    groupRows (addToGroup g key x) key' = groupRows g key' := by
  induction g with
  | nil => simp [addToGroup, groupRows, Ne.symm h]
  | cons kv rest ih =>
    obtain ⟨k, xs⟩ := kv
    by_cases hk : k = key
    · subst hk
      simp [addToGroup, groupRows, Ne.symm h]
    · simp only [addToGroup, if_neg hk]
      by_cases hk2 : k = key'
      · simp [groupRows, hk2]
      · simp [groupRows, hk2, ih]

theorem addToGroup_nodup {α : Type} (g : List (String × List α)) (key : String)
    (x : α) (h : (g.map Prod.fst).Nodup) :
    ((addToGroup g key x).map Prod.fst).Nodup := by
  rw [addToGroup_keys]
  by_cases hmem : key ∈ g.map Prod.fst
  · simpa [hmem] using h
  · simp [hmem, List.nodup_append, h]

theorem key_unique {α : Type} (g : List (String × α))
    (hnd : (g.map Prod.fst).Nodup) (k : String) (a b : α)
    (ha : (k, a) ∈ g) (hb : (k, b) ∈ g) : a = b := by
  induction g with
  | nil => simp at ha
  | cons kv rest ih =>
    obtain ⟨k0, x0⟩ := kv
    simp only [List.map_cons, List.nodup_cons] at hnd
    rcases List.mem_cons.mp ha with h1 | h1 <;> rcases List.mem_cons.mp hb with h2 | h2
    · rw [Prod.mk.injEq] at h1 h2
      exact h1.2.trans h2.2.symm
    · rw [Prod.mk.injEq] at h1
      exact absurd (List.mem_map.mpr ⟨(k, b), h2, by rw [← h1.1]⟩) hnd.1
    · rw [Prod.mk.injEq] at h2
      exact absurd (List.mem_map.mpr ⟨(k, a), h1, by rw [← h2.1]⟩) hnd.1
    · exact ih hnd.2 h1 h2

theorem groupRows_of_mem {α : Type} (g : List (String × List α))
    (hnd : (g.map Prod.fst).Nodup) (k : String) (rows : List α)
    (hmem : (k, rows) ∈ g) : groupRows g k = rows := by
  induction g with
  | nil => simp at hmem
  | cons kv rest ih =>
    obtain ⟨k0, xs0⟩ := kv
    simp only [List.map_cons, List.nodup_cons] at hnd
    rcases List.mem_cons.mp hmem with h1 | h1
    · rw [Prod.mk.injEq] at h1
      simp [groupRows, h1.1, h1.2]
    · have hne : k0 ≠ k := by
        intro hk
        subst hk
        exact hnd.1 (List.mem_map.mpr ⟨(k0, rows), h1, rfl⟩)
      simp [groupRows, hne, ih hnd.2 h1]

theorem mem_filter_map_fst {α : Type} (g : List (String × α))
    (P : String × α → Bool) (sid : String) (rows : α)
    (hnd : (g.map Prod.fst).Nodup) (hmem : (sid, rows) ∈ g) :
    sid ∈ (g.filter P).map Prod.fst ↔ P (sid, rows) = true := by
  constructor
  · intro h
    obtain ⟨kv, hkv, hfst⟩ := List.mem_map.mp h
    have hin := List.mem_filter.mp hkv
    obtain ⟨k0, v0⟩ := kv
    simp only at hfst
    subst hfst
    have hv : v0 = rows := key_unique g hnd k0 v0 rows hin.1 hmem
    subst hv
    exact hin.2
  · intro h
    exact List.mem_map.mpr ⟨(sid, rows), List.mem_filter.mpr ⟨hmem, h⟩, rfl⟩

theorem insertIfAbsent_mem (l : List String) (s t : String) :
    t ∈ insertIfAbsent l s ↔ t ∈ l ∨ t = s := by
  unfold insertIfAbsent
  by_cases h : s ∈ l
  · simp only [if_pos h]
    constructor
    · exact Or.inl
    · rintro (ht | rfl)
      · exact ht
      · exact h
  · simp [if_neg h]

theorem poseState_step (poses : List (String × List TrajRow)) (marks : List String)
    (sid : String) (entry : TrajRow)
    (h2 : ∀ s, s ∈ marks ↔ (groupRows poses s).any pose_has_data = true) :
    ∀ s, s ∈ (if pose_has_data entry then insertIfAbsent marks sid else marks) ↔
      (groupRows (addToGroup poses sid entry) s).any pose_has_data = true := by
  intro s
  by_cases hs : s = sid
  · subst hs
    rw [groupRows_addToGroup_self, List.any_append]
    cases hhas : pose_has_data entry with
    | true =>
      simp only [if_pos rfl]
      simp [insertIfAbsent_mem, hhas]
    | false =>
      simp only [Bool.false_eq_true, if_neg, not_false_iff]
      simp [hhas, h2 s]
  · rw [groupRows_addToGroup_ne _ _ _ _ hs]
    cases hhas : pose_has_data entry with
    | true =>
      simp only [if_pos rfl]
      simp [insertIfAbsent_mem, hs, h2 s]
    | false =>
      simp only [Bool.false_eq_true, if_neg, not_false_iff]
      exact h2 s

theorem acqPoseLoop_inv (aid sen : String) (m : Nat) (l : List Record) :
    ∀ (idx : Nat) (st : AcqPoseState),
    (st.poses_by_sequence.map Prod.fst).Nodup →
    (∀ s, s ∈ st.sequences_with_pose ↔
      (groupRows st.poses_by_sequence s).any pose_has_data = true) →
    ((acqPoseLoop aid sen m idx l st).poses_by_sequence.map Prod.fst).Nodup ∧
    (∀ s, s ∈ (acqPoseLoop aid sen m idx l st).sequences_with_pose ↔
      (groupRows (acqPoseLoop aid sen m idx l st).poses_by_sequence s).any
        pose_has_data = true) := by
  induction l with
  | nil =>
    intro idx st h1 h2
    exact ⟨h1, h2⟩
  | cons info rest ih =>
    intro idx st h1 h2
    simp only [acqPoseLoop]
    exact ih (idx + 1) _ (addToGroup_nodup _ _ _ h1)
      (poseState_step st.poses_by_sequence st.sequences_with_pose _ _ h2)

theorem isNullVal_false_iff (v : PyVal) : isNullVal v = false ↔ v ≠ PyVal.null := by
  cases v <;> simp [isNullVal]

theorem isEmptyStrVal_false_iff (v : PyVal) :
    isEmptyStrVal v = false ↔ v ≠ PyVal.str "" := by
  cases v <;> simp [isEmptyStrVal]

/-- C6: for every sequence accumulated by processing an acquisition,
the trajectory CSV is written exactly when some accumulated row of
that sequence carries, in one of the seven pose data fields, a value
that is neither None nor the empty string. -/
theorem trajectory_emission (aid sen : String) (m : Nat) (records : List Record)
    (sid : String) (rows : List TrajRow)
    (hmem : (sid, rows) ∈
      (process_acquisition_poses aid sen m records).poses_by_sequence) :
    (sid ∈ trajectory_csv_sequences (process_acquisition_poses aid sen m records) ↔
      rows.any pose_has_data = true) ∧
    (rows.any pose_has_data = true ↔
      ∃ r ∈ rows, ∃ key ∈ POSE_DATA_FIELDS,
        rowGet r key ≠ PyVal.null ∧ rowGet r key ≠ PyVal.str "") := by
  obtain ⟨hnd0, hJ0⟩ := acqPoseLoop_inv aid sen m (sortRecords records) 1 ⟨[], []⟩
    (by simp) (by intro s; simp [groupRows])
  have hnd : ((process_acquisition_poses aid sen m records).poses_by_sequence.map
      Prod.fst).Nodup := hnd0
  have hJ : ∀ s, s ∈ (process_acquisition_poses aid sen m records).sequences_with_pose ↔
      (groupRows (process_acquisition_poses aid sen m records).poses_by_sequence s).any
        pose_has_data = true := hJ0
  constructor
  · have h1 := mem_filter_map_fst
      (process_acquisition_poses aid sen m records).poses_by_sequence
      (fun kv => decide
        (kv.1 ∈ (process_acquisition_poses aid sen m records).sequences_with_pose))
      sid rows hnd hmem
    have h2 : sid ∈ trajectory_csv_sequences
        (process_acquisition_poses aid sen m records) ↔
        decide (sid ∈
          (process_acquisition_poses aid sen m records).sequences_with_pose) =
          true := h1
    rw [h2, decide_eq_true_eq, hJ sid, groupRows_of_mem _ hnd sid rows hmem]
  · rw [List.any_eq_true]
    constructor
    · rintro ⟨r, hr, hhas⟩
      refine ⟨r, hr, ?_⟩
      rw [pose_has_data, List.any_eq_true] at hhas
      obtain ⟨key, hkey, hcond⟩ := hhas
      rw [Bool.and_eq_true, Bool.not_eq_true', Bool.not_eq_true'] at hcond
      exact ⟨key, hkey, (isNullVal_false_iff _).mp hcond.1,
        (isEmptyStrVal_false_iff _).mp hcond.2⟩
    · rintro ⟨r, hr, key, hkey, hnull, hempty⟩
      refine ⟨r, hr, ?_⟩
      rw [pose_has_data, List.any_eq_true]
      refine ⟨key, hkey, ?_⟩
      rw [Bool.and_eq_true, Bool.not_eq_true', Bool.not_eq_true']
      exact ⟨(isNullVal_false_iff _).mpr hnull, (isEmptyStrVal_false_iff _).mpr hempty⟩

/-- Concrete record whose pose row carries a heading. -/
def c6rec : Record :=
  ⟨"a.jpg", ".jpg", "a.jpg", "20240102", [], 0,
   Option.some ⟨Option.some "a", Option.none, Option.none, Option.none,
     Option.none, Option.none, Option.some 5, Option.none, Option.none⟩⟩

/-- The trajectory row the pipeline accumulates for c6rec. -/
def c6row : TrajRow :=
  ⟨1, "A_S001_Cam_000001.jpg", .null, .null, .null, .null, .num 5, .null, .null⟩

theorem trajectory_emission_witness :
    (process_acquisition_poses "A" "Cam" 2 [c6rec]).poses_by_sequence =
      [("S001", [c6row])] ∧
    ("S001" ∈ trajectory_csv_sequences
        (process_acquisition_poses "A" "Cam" 2 [c6rec]) ↔
      [c6row].any pose_has_data = true) ∧
    "S001" ∈ trajectory_csv_sequences
      (process_acquisition_poses "A" "Cam" 2 [c6rec]) := by
  have hst : (process_acquisition_poses "A" "Cam" 2 [c6rec]).poses_by_sequence =
      [("S001", [c6row])] := rfl
  have hiff := (trajectory_emission "A" "Cam" 2 [c6rec] "S001" [c6row]
    (by rw [hst]; exact List.mem_cons_self _ _)).1
  exact ⟨hst, hiff, hiff.mpr (by decide)⟩

/-- The rows of a sequence with both latitude and longitude populated
(parseable as floats): the rows build_geojson_track collects. -/
def qualRows (rows : List TrajRow) : List TrajRow :=
  rows.filter (fun r => (parse_float r.gps_latitude).isSome &&
    (parse_float r.gps_longitude).isSome)

/-- The coordinate array a qualifying row contributes: lon, lat and,
when altitude is included, the parsed altitude. -/
def coordOf (withAlt : Bool) (r : TrajRow) : PyVal :=
  match withAlt, parse_float r.gps_altitude_m with
  | true, Option.some a =>
    .list [.num ((parse_float r.gps_longitude).getD 0),
           .num ((parse_float r.gps_latitude).getD 0), .num a]
  | _, _ =>
    .list [.num ((parse_float r.gps_longitude).getD 0),
           .num ((parse_float r.gps_latitude).getD 0)]

/-- Is the value None or a number (the only shapes the pipeline stores
in the altitude field of a trajectory row). -/
def isNumOrNone : PyVal → Bool
  | .null => true
  | .num _ => true
  | _ => false

/-- Every qualifying row of a sequence has a non-null altitude. -/
def allAltRows (rows : List TrajRow) : Bool :=
  (qualRows rows).all (fun r => !(isNullVal r.gps_altitude_m))

/-- The coordinates array inside a GeoJSON payload built by
build_geojson_track. -/
def geojson_coords (g : PyVal) : Option (List PyVal) :=
  match g with
  | .dict es =>
    match dictGet es "features" with
    | Option.some (.list [f]) =>
      match pyGetV f "geometry" with
      | .dict ges =>
        match dictGet ges "coordinates" with
        | Option.some (.list cs) => Option.some cs
        | _ => Option.none
      | _ => Option.none
    | _ => Option.none
  | _ => Option.none

/-- Whether the properties of a GeoJSON payload carry the
altitude-units tag. -/
def geojson_has_alt_units (g : PyVal) : Bool :=
  match g with
  | .dict es =>
    match dictGet es "features" with
    | Option.some (.list [f]) =>
      match pyGetV f "properties" with
      | .dict pes => (dictGet pes "altitude_units").isSome
      | _ => false
    | _ => false
  | _ => false

theorem geojson_coords_build (coords : List PyVal) (props : List (String × PyVal)) :
    geojson_coords (.dict [
      ("type", .str "FeatureCollection"),
      ("features", .list [PyVal.dict [
        ("type", .str "Feature"),
        ("properties", .dict props),
        ("geometry", .dict [
          ("type", .str "LineString"),
          ("coordinates", .list coords)])]])]) = Option.some coords := rfl

theorem geojson_alt_units_build (coords : List PyVal) (props : List (String × PyVal)) :
    geojson_has_alt_units (.dict [
      ("type", .str "FeatureCollection"),
      ("features", .list [PyVal.dict [
        ("type", .str "Feature"),
        ("properties", .dict props),
        ("geometry", .dict [
          ("type", .str "LineString"),
          ("coordinates", .list coords)])]])]) =
      (dictGet props "altitude_units").isSome := rfl

theorem positions_eq (rows : List TrajRow) :
    rows.filterMap (fun row =>
      match parse_float row.gps_latitude, parse_float row.gps_longitude with
      | Option.some lat, Option.some lon =>
        Option.some (lon, lat, parse_float row.gps_altitude_m)
      | _, _ => Option.none) =
    (qualRows rows).map
      (fun r => ((parse_float r.gps_longitude).getD 0,
                 (parse_float r.gps_latitude).getD 0,
                 parse_float r.gps_altitude_m)) := by
  induction rows with
  | nil => rfl
  | cons r t ih =>
    simp only [List.filterMap_cons, qualRows, List.filter_cons]
    cases hla : parse_float r.gps_latitude <;>
      cases hlo : parse_float r.gps_longitude <;>
      simp only [Option.isSome_none, Option.isSome_some, Bool.false_and,
        Bool.and_false, Bool.and_self, Bool.true_and, Bool.and_true,
        if_false, if_true, List.map_cons, Option.getD_some] <;>
      simp [qualRows] at ih <;> simp [ih, hla, hlo]

theorem length_filter_eq_iff {α : Type} (l : List α) (p : α → Bool) :
    (l.filter p).length = l.length ↔ ∀ a ∈ l, p a = true := by
  constructor
  · intro h
    exact List.filter_eq_self.mp ((List.filter_sublist l).eq_of_length h)
  · intro h
    rw [List.filter_eq_self.mpr h]

/-- C7: a sequence's GeoJSON track is written exactly when its
trajectory CSV is written and at least two of its rows have both
coordinates populated; the geometry lists the qualifying rows in row
order, with altitude in each coordinate and an altitude-units property
exactly when every qualifying row carries a non-null altitude, and 2D
coordinates otherwise. -/
theorem geojson_emission (aid sen : String) (m : Nat) (records : List Record)
    (sid : String) (rows : List TrajRow)
    (hmem : (sid, rows) ∈
      (process_acquisition_poses aid sen m records).poses_by_sequence)
    (halt : ∀ r ∈ rows, isNumOrNone r.gps_altitude_m = true) :
    (sid ∈ geojson_sequences (process_acquisition_poses aid sen m records) aid sen ↔
      (sid ∈ trajectory_csv_sequences (process_acquisition_poses aid sen m records) ∧
        2 ≤ (qualRows rows).length)) ∧
    (∀ g, build_geojson_track rows aid sid sen = Option.some g →
      geojson_coords g =
        Option.some ((qualRows rows).map (coordOf (allAltRows rows))) ∧
      (geojson_has_alt_units g = allAltRows rows)) := by
  obtain ⟨hnd0, hJ0⟩ := acqPoseLoop_inv aid sen m (sortRecords records) 1 ⟨[], []⟩
    (by simp) (by intro s; simp [groupRows])
  have hnd : ((process_acquisition_poses aid sen m records).poses_by_sequence.map
      Prod.fst).Nodup := hnd0
  have hqlen : ∀ a sq, (build_geojson_track rows a sq sen).isSome ↔
      2 ≤ (qualRows rows).length := by
    intro a sq
    rw [build_geojson_track, positions_eq]
    by_cases hlen : ((qualRows rows).map
        (fun r => ((parse_float r.gps_longitude).getD 0,
                   (parse_float r.gps_latitude).getD 0,
                   parse_float r.gps_altitude_m))).length < 2
    · rw [if_pos hlen]
      simp only [List.length_map] at hlen
      constructor
      · intro h
        simp at h
      · intro h
        omega
    · rw [if_neg hlen]
      simp only [List.length_map] at hlen
      constructor
      · intro h
        omega
      · intro h
        simp
  constructor
  · have h1 := mem_filter_map_fst
      (process_acquisition_poses aid sen m records).poses_by_sequence
      (fun kv => decide
        (kv.1 ∈ (process_acquisition_poses aid sen m records).sequences_with_pose) &&
        (build_geojson_track kv.2 aid kv.1 sen).isSome)
      sid rows hnd hmem
    have h2 : sid ∈ geojson_sequences
        (process_acquisition_poses aid sen m records) aid sen ↔
        (decide (sid ∈
          (process_acquisition_poses aid sen m records).sequences_with_pose) &&
          (build_geojson_track rows aid sid sen).isSome) = true := h1
    have h3 := mem_filter_map_fst
      (process_acquisition_poses aid sen m records).poses_by_sequence
      (fun kv => decide
        (kv.1 ∈ (process_acquisition_poses aid sen m records).sequences_with_pose))
      sid rows hnd hmem
    have h4 : sid ∈ trajectory_csv_sequences
        (process_acquisition_poses aid sen m records) ↔
        decide (sid ∈
          (process_acquisition_poses aid sen m records).sequences_with_pose) =
          true := h3
    rw [h2, h4, Bool.and_eq_true, Option.isSome_iff_exists]
    rw [← hqlen aid sid, Option.isSome_iff_exists]
  · intro g hg
    have haltparse : ∀ r ∈ qualRows rows,
        (parse_float r.gps_altitude_m).isSome = !(isNullVal r.gps_altitude_m) := by
      intro r hr
      have hr2 : r ∈ rows := List.mem_of_mem_filter hr
      have := halt r hr2
      cases hv : r.gps_altitude_m <;> simp [isNumOrNone, hv] at this ⊢ <;>
        simp [parse_float, isNullVal]
    rw [build_geojson_track, positions_eq] at hg
    set quals := qualRows rows with hquals
    set f : TrajRow → ℚ × ℚ × Option ℚ :=
      (fun r => ((parse_float r.gps_longitude).getD 0,
                 (parse_float r.gps_latitude).getD 0,
                 parse_float r.gps_altitude_m)) with hf
    by_cases hlen : (quals.map f).length < 2
    · rw [if_pos hlen] at hg
      exact absurd hg (by simp)
    · rw [if_neg hlen] at hg
      have hfilter : (quals.map f).filter (fun p => p.2.2.isSome) =
          (quals.filter (fun r => (parse_float r.gps_altitude_m).isSome)).map f := by
        rw [List.map_filter]
        rfl
      have hcount : ((quals.map f).filter (fun p => p.2.2.isSome)).length =
            (quals.map f).length ↔ allAltRows rows = true := by
        rw [hfilter, List.length_map, List.length_map, length_filter_eq_iff]
        rw [allAltRows, List.all_eq_true]
        constructor
        · intro h r hr
          rw [← haltparse r hr]
          exact h r hr
        · intro h r hr
          rw [haltparse r hr]
          exact h r hr
      have hinc : decide (((quals.map f).filter (fun p => p.2.2.isSome)).length =
          (quals.map f).length) = allAltRows rows := by
        by_cases hq : ((quals.map f).filter (fun p => p.2.2.isSome)).length =
            (quals.map f).length
        · rw [decide_eq_true hq, (hcount.mp hq).symm]
        · rw [decide_eq_false hq]
          cases hall : allAltRows rows
          · rfl
          · exact absurd (hcount.mpr hall) hq
      rw [Option.some.injEq] at hg
      subst hg
      constructor
      · rw [geojson_coords_build]
        apply congrArg
        rw [List.map_map]
        apply List.map_congr_left
        intro r hr
        simp only [Function.comp, hinc]
        cases hall : allAltRows rows <;> cases ha : parse_float r.gps_altitude_m <;>
          simp [coordOf, hall, ha]
      · rw [geojson_alt_units_build, hinc]
        cases hall : allAltRows rows
        · simp [dictGet]
        · simp [dictGet]

/-- Concrete record with merged GPS coordinates, no pose row. -/
def c7recA : Record :=
  ⟨"a.jpg", ".jpg", "a.jpg", "20240102",
   [("gps", .dict [("latitude_deg", .num 1), ("longitude_deg", .num 2)])],
   0, Option.none⟩

/-- Second concrete record with merged GPS coordinates. -/
def c7recB : Record :=
  ⟨"b.jpg", ".jpg", "b.jpg", "20240102",
   [("gps", .dict [("latitude_deg", .num 3), ("longitude_deg", .num 4)])],
   0, Option.none⟩

/-- The trajectory row accumulated for c7recA. -/
def c7rowA : TrajRow :=
  ⟨1, "A_S001_Cam_000001.jpg", .null, .num 1, .num 2, .null, .null, .null, .null⟩

/-- The trajectory row accumulated for c7recB. -/
def c7rowB : TrajRow :=
  ⟨2, "A_S001_Cam_000002.jpg", .null, .num 3, .num 4, .null, .null, .null, .null⟩

theorem geojson_emission_witness :
    (process_acquisition_poses "A" "Cam" 10 [c7recA, c7recB]).poses_by_sequence =
      [("S001", [c7rowA, c7rowB])] ∧
    (∀ r ∈ [c7rowA, c7rowB], isNumOrNone r.gps_altitude_m = true) ∧
    ("S001" ∈ geojson_sequences
        (process_acquisition_poses "A" "Cam" 10 [c7recA, c7recB]) "A" "Cam" ↔
      ("S001" ∈ trajectory_csv_sequences
          (process_acquisition_poses "A" "Cam" 10 [c7recA, c7recB]) ∧
        2 ≤ (qualRows [c7rowA, c7rowB]).length)) ∧
    "S001" ∈ geojson_sequences
      (process_acquisition_poses "A" "Cam" 10 [c7recA, c7recB]) "A" "Cam" := by
  have hst : (process_acquisition_poses "A" "Cam" 10
      [c7recA, c7recB]).poses_by_sequence = [("S001", [c7rowA, c7rowB])] := rfl
  have hiff := (geojson_emission "A" "Cam" 10 [c7recA, c7recB] "S001"
    [c7rowA, c7rowB] (by rw [hst]; exact List.mem_cons_self _ _) (by decide)).1
  exact ⟨hst, by decide, hiff, hiff.mpr ⟨by decide, by decide⟩⟩

/-- cli.load_pose_lookup: a missing (or empty) path yields the empty
lookup; otherwise the collaborator outcome of csv_utils.load_pose_csv
(either a lookup or a raised OSError/ValueError message) is returned,
a failure degrading to the empty lookup exactly when soft_fail. -/
def load_pose_lookup (path : Option String)
    (loadResult : Except String (List (String × PoseRow))) (soft_fail : Bool) :
    Except String (List (String × PoseRow)) :=
  match path with
  | Option.none => Except.ok []
  | Option.some p =>
    if p = "" then Except.ok []
    else
      match loadResult with
      | Except.ok m => Except.ok m
      | Except.error e => if soft_fail then Except.ok [] else Except.error e

/-- cli.is_auto_value: a truthy value whose stripped lower-case text
is auto. -/
def is_auto_value (value : Option String) : Bool :=
  match value with
  | Option.none => false
  | Option.some s =>
    if s = "" then false
    else decide ((trimWs s.data).map Char.toLower = "auto".data)

/-- Outcome of the pose-CSV step of cli.run_single_acquisition. -/
inductive SingleRunPose where
  | aborted (message : String) : SingleRunPose
  | proceed (lookup : List (String × PoseRow)) : SingleRunPose

/-- The pose-CSV step of cli.run_single_acquisition: resolve the path
(auto-locating via find_pose_csv_path when the argument is the auto
flag), then load with soft_fail = False; a load failure prints the
error and returns 1, aborting before any image enumeration or
processing. -/
def run_single_pose_step (pose_csv_arg located : Option String)
    (loadResult : Except String (List (String × PoseRow))) : SingleRunPose :=
  let pose_csv_path :=
    if is_auto_value pose_csv_arg then located else pose_csv_arg
  match load_pose_lookup pose_csv_path loadResult false with
  | Except.ok m => SingleRunPose.proceed m
  | Except.error e => SingleRunPose.aborted e

/-- The per-plan pose loading of cli.run_multi_acquisition: the plan's
pose path was auto-located by cli.build_plans (find_pose_csv_path) and
loading uses soft_fail = True. -/
def run_multi_pose_step (plan_pose_csv_path : Option String)
    (loadResult : Except String (List (String × PoseRow))) :
    Except String (List (String × PoseRow)) :=
  load_pose_lookup plan_pose_csv_path loadResult true

/-- C8 counterexample: in the single-acquisition flow with the pose
argument auto, the pose CSV is auto-located, yet a malformed file
aborts the run instead of degrading to an empty lookup as the claim
requires for auto-located sources. -/
theorem pose_soft_fail_counterexample :
    is_auto_value (Option.some "auto") = true ∧
    run_single_pose_step (Option.some "auto") (Option.some "poses.csv")
        (Except.error "malformed pose CSV") =
      SingleRunPose.aborted "malformed pose CSV" ∧
    SingleRunPose.aborted "malformed pose CSV" ≠
      SingleRunPose.proceed [] := by
  refine ⟨by decide, rfl, ?_⟩
  intro h
  exact SingleRunPose.noConfusion h

/-- C8 amended: in the interactive multi-acquisition flow (where pose
sources are auto-located by build_plans) an unreadable or malformed
pose CSV degrades to an empty lookup and the run continues; in the
single-acquisition flow a pose CSV failure is fatal before any
processing, both for an explicitly supplied path and for a path
auto-located via the auto flag; an absent pose source is the empty
lookup everywhere. -/
theorem pose_error_handling (e : String) (lookup : List (String × PoseRow)) :
    (∀ p : String, p ≠ "" →
      run_multi_pose_step (Option.some p) (Except.error e) = Except.ok []) ∧
    (∀ p : String, p ≠ "" →
      run_multi_pose_step (Option.some p) (Except.ok lookup) = Except.ok lookup) ∧
    run_multi_pose_step Option.none (Except.error e) = Except.ok [] ∧
    (∀ arg : Option String, ∀ p : String, is_auto_value arg = false →
      arg = Option.some p → p ≠ "" → ∀ located,
      run_single_pose_step arg located (Except.error e) =
        SingleRunPose.aborted e) ∧
    (∀ arg located : Option String, ∀ p : String, is_auto_value arg = true →
      located = Option.some p → p ≠ "" →
      run_single_pose_step arg located (Except.error e) =
        SingleRunPose.aborted e) ∧
    (∀ arg located : Option String, ∀ p : String, is_auto_value arg = true →
      located = Option.some p → p ≠ "" →
      run_single_pose_step arg located (Except.ok lookup) =
        SingleRunPose.proceed lookup) := by
  refine ⟨?_, ?_, rfl, ?_, ?_, ?_⟩
  · intro p hp
    rw [run_multi_pose_step, load_pose_lookup]
    simp [hp]
  · intro p hp
    rw [run_multi_pose_step, load_pose_lookup]
    simp [hp]
  · intro arg p hauto harg hp located
    subst harg
    rw [run_single_pose_step]
    simp only [hauto, Bool.false_eq_true, if_neg, not_false_iff]
    rw [load_pose_lookup]
    simp [hp]
  · intro arg located p hauto hloc hp
    subst hloc
    rw [run_single_pose_step]
    simp only [hauto, if_pos]
    rw [load_pose_lookup]
    simp [hp]
  · intro arg located p hauto hloc hp
    subst hloc
    rw [run_single_pose_step]
    simp only [hauto, if_pos]
    rw [load_pose_lookup]
    simp [hp]

theorem pose_error_handling_witness :
    ("auto.csv" : String) ≠ "" ∧
    run_multi_pose_step (Option.some "auto.csv") (Except.error "bad") =
      Except.ok [] ∧
    is_auto_value (Option.some "given.csv") = false ∧
    run_single_pose_step (Option.some "given.csv") Option.none
        (Except.error "bad") = SingleRunPose.aborted "bad" := by
  have h := pose_error_handling "bad" []
  refine ⟨by decide, h.1 "auto.csv" (by decide), by decide, ?_⟩
  exact h.2.2.2.1 (Option.some "given.csv") "given.csv" (by decide) rfl
    (by decide) Option.none

/-- The output naming key: acquisition id, sequence id, sensor id and
frame id joined by underscores (processing.process_acquisition). -/
def namingKey (acquisition_id sequence_id sensor_id frame_id : String) : String :=
  acquisition_id ++ "_" ++ sequence_id ++ "_" ++ sensor_id ++ "_" ++ frame_id

/-- The naming key of the record at 1-based sorted position idx. -/
def keyRepr (acquisition_id sensor_id : String) (idx m : Nat) : String :=
  namingKey acquisition_id (sequence_ids idx m).1 sensor_id
    (sequence_ids idx m).2.1

/-- The (naming key, source path) pairs of one acquisition group in
assignment order. -/
def keysLoop (acquisition_id sensor_id : String) (m : Nat) :
    Nat → List Record → List (String × String)
  | _, [] => []
  | idx, info :: rest =>
    (keyRepr acquisition_id sensor_id idx m, info.src) ::
      keysLoop acquisition_id sensor_id m (idx + 1) rest

/-- The (naming key, source path) pairs of one processed acquisition:
records sorted, then keyed by 1-based position. -/
def acquisitionKeys (acquisition_id : String) (records : List Record)
    (sensor_id : String) (m : Nat) : List (String × String) :=
  keysLoop acquisition_id sensor_id m 1 (sortRecords records)

/-- All (naming key, source path) pairs of one
process_records_by_acquisition call. -/
def callKeys (records : List Record) (region sensor_id : String) (m : Nat) :
    List (String × String) :=
  ((groupRecords records region).map
    (fun kv => acquisitionKeys kv.1 kv.2 sensor_id m)).flatten

/-- All pairs of a whole interactive multi-acquisition run: one
process_records_by_acquisition call per plan (region, sensor,
records), sequence and frame numbering restarting in each call. -/
def runKeys (plans : List (String × String × List Record)) (m : Nat) :
    List (String × String) :=
  (plans.map (fun plan => callKeys plan.2.2 plan.1 plan.2.1 m)).flatten

theorem string_eq_of_data (a b : String) (h : a.data = b.data) : a = b := by
  cases a
  cases b
  exact congrArg String.mk h

theorem digitChar_isDigit (d : Nat) (h : d < 10) :
    (digitChar d).isDigit = true := by
  interval_cases d <;> decide

theorem numChars_digits (n : Nat) : (numChars n).all Char.isDigit = true := by
  induction n using Nat.strong_induction_on with
  | _ n ih =>
    rw [numChars_eq]
    by_cases h : n < 10
    · simp [h, digitChar_isDigit n h]
    · simp only [h, if_neg, not_false_iff, List.all_append]
      rw [ih (n / 10) (Nat.div_lt_self (by omega) (by omega))]
      simp [digitChar_isDigit _ (Nat.mod_lt _ (by omega))]

theorem padNum_digits (w n : Nat) : (padNum w n).data.all Char.isDigit = true := by
  show (List.replicate (w - (numChars n).length) '0' ++ numChars n).all
    Char.isDigit = true
  rw [List.all_append, numChars_digits, Bool.and_true]
  rw [List.all_eq_true]
  intro a ha
  rw [List.eq_of_mem_replicate ha]
  decide

theorem takeWhile_digits_append (cs rest : List Char)
    (h : cs.all Char.isDigit = true) :
    (cs ++ '_' :: rest).takeWhile Char.isDigit = cs := by
  induction cs with
  | nil => simp [List.takeWhile]
  | cons c t ih =>
    simp only [List.all_cons, Bool.and_eq_true] at h
    simp only [List.cons_append, List.takeWhile]
    rw [h.1]
    simp [ih h.2]

theorem keyRepr_data (aid sen : String) (idx m : Nat) :
    (keyRepr aid sen idx m).data =
      aid.data ++ ('_' :: 'S' :: ((padNum 3 (seqNum idx m)).data ++
        ('_' :: (sen.data ++ ('_' :: (padNum 6 (frameNum idx m)).data))))) := by
  show (namingKey aid ("S" ++ padNum 3 (seqNum idx m)) sen
    (padNum 6 (frameNum idx m))).data = _
  simp [namingKey, String.data_append, List.append_assoc]

theorem keyRepr_inj (aid sen : String) (m : Nat) (hm : 0 < m) (i j : Nat)
    (hi : 1 ≤ i) (hj : 1 ≤ j)
    (h : keyRepr aid sen i m = keyRepr aid sen j m) : i = j := by
  have hd : (keyRepr aid sen i m).data = (keyRepr aid sen j m).data := by rw [h]
  rw [keyRepr_data, keyRepr_data] at hd
  have h1 := List.append_cancel_left hd
  injection h1 with _ h1
  injection h1 with _ h1
  have hseqd : (padNum 3 (seqNum i m)).data = (padNum 3 (seqNum j m)).data := by
    have hti := takeWhile_digits_append (padNum 3 (seqNum i m)).data
      (sen.data ++ ('_' :: (padNum 6 (frameNum i m)).data)) (padNum_digits 3 _)
    have htj := takeWhile_digits_append (padNum 3 (seqNum j m)).data
      (sen.data ++ ('_' :: (padNum 6 (frameNum j m)).data)) (padNum_digits 3 _)
    rw [← hti, ← htj, h1]
  have hs : seqNum i m = seqNum j m :=
    padNum_inj 3 _ _ (string_eq_of_data _ _ hseqd)
  rw [hseqd] at h1
  have h2 := List.append_cancel_left h1
  injection h2 with _ h2
  have h3 := List.append_cancel_left h2
  injection h3 with _ h3
  have hf : frameNum i m = frameNum j m :=
    padNum_inj 6 _ _ (string_eq_of_data _ _ h3)
  have hdmi := Nat.div_add_mod (i - 1) m
  have hdmj := Nat.div_add_mod (j - 1) m
  simp only [seqNum] at hs
  simp only [frameNum] at hf
  have hdiv : (i - 1) / m = (j - 1) / m := by omega
  have hmod : (i - 1) % m = (j - 1) % m := by omega
  rw [hdiv, hmod] at hdmi
  omega

theorem keyRepr_take8 (d region sen : String) (idx m : Nat)
    (hd : d.length = 8) :
    (keyRepr (d ++ "-" ++ region) sen idx m).data.take 8 = d.data := by
  rw [keyRepr_data]
  have hdr : (d ++ "-" ++ region).data = d.data ++ ('-' :: region.data) := by
    simp [String.data_append]
  rw [hdr, List.append_assoc]
  have hlen : d.data.length = 8 := hd
  rw [← hlen, List.take_left]

theorem addToGroup_nonempty {α : Type} (g : List (String × List α)) (key : String)
    (x : α) (h : ∀ kv ∈ g, kv.2 ≠ []) :
    ∀ kv ∈ addToGroup g key x, kv.2 ≠ [] := by
  induction g with
  | nil =>
    intro kv hkv
    simp only [addToGroup, List.mem_singleton] at hkv
    subst hkv
    simp
  | cons kv0 rest ih =>
    obtain ⟨k, xs⟩ := kv0
    have hhead : ((k, xs) : String × List α).2 ≠ [] := h _ (List.mem_cons_self _ _)
    have hrest : ∀ kv ∈ rest, kv.2 ≠ [] :=
      fun kv hkv => h kv (List.mem_cons_of_mem _ hkv)
    by_cases hk : k = key
    · subst hk
      intro kv hkv
      rw [show addToGroup ((k, xs) :: rest) k x = (k, xs ++ [x]) :: rest from by
        simp [addToGroup]] at hkv
      rcases List.mem_cons.mp hkv with rfl | hkv2
      · simp
      · exact hrest kv hkv2
    · intro kv hkv
      rw [show addToGroup ((k, xs) :: rest) key x = (k, xs) :: addToGroup rest key x
        from by simp [addToGroup, hk]] at hkv
      rcases List.mem_cons.mp hkv with rfl | hkv2
      · exact hhead
      · exact ih hrest kv hkv2

theorem groupFold_nonempty (region : String) (l : List Record) :
    ∀ g0 : List (String × List Record), (∀ kv ∈ g0, kv.2 ≠ []) →
    ∀ kv ∈ l.foldl (fun g r => addToGroup g (acquisitionIdOf r region) r) g0,
      kv.2 ≠ [] := by
  induction l with
  | nil => intro g0 h; exact h
  | cons r t ih =>
    intro g0 h
    simp only [List.foldl_cons]
    exact ih _ (addToGroup_nonempty g0 _ r h)

/-- Every group of one grouping run is keyed by the acquisition id of
one of the input records. -/
theorem groupRecords_form (records : List Record) (region : String) :
    ∀ kv ∈ groupRecords records region, ∃ r, r ∈ records ∧
      kv.1 = acquisitionIdOf r region := by
  intro kv hkv
  have hkv' : kv ∈ records.foldl
      (fun g r => addToGroup g (acquisitionIdOf r region) r) [] := hkv
  have hprop := groupFold_prop region records [] (by simp) kv hkv'
  have hne : kv.2 ≠ [] := groupFold_nonempty region records [] (by simp) kv hkv'
  obtain ⟨r, hr⟩ := List.exists_mem_of_ne_nil kv.2 hne
  refine ⟨r, ?_, (hprop r hr).symm⟩
  have hmem : r ∈ ((groupRecords records region).map Prod.snd).flatten :=
    List.mem_flatten.mpr ⟨kv.2, List.mem_map_of_mem Prod.snd hkv, hr⟩
  have hperm := groupFold_join region records []
  simp only [List.map_nil, List.flatten_nil, List.nil_append] at hperm
  exact hperm.mem_iff.mp hmem

/-- The naming keys produced by the assignment loop are the key
renderings of the consecutive 1-based positions. -/
theorem keysLoop_keys (aid sen : String) (m : Nat) (l : List Record) :
    ∀ idx, (keysLoop aid sen m idx l).map Prod.fst =
      (List.range l.length).map (fun t => keyRepr aid sen (idx + t) m) := by
  induction l with
  | nil => intro idx; rfl
  | cons info rest ih =>
    intro idx
    rw [show keysLoop aid sen m idx (info :: rest) =
      (keyRepr aid sen idx m, info.src) :: keysLoop aid sen m (idx + 1) rest
      from rfl]
    rw [List.map_cons, ih (idx + 1), List.length_cons, List.range_succ_eq_map,
      List.map_cons, List.map_map]
    refine congrArg₂ List.cons ?_ ?_
    · show keyRepr aid sen idx m = keyRepr aid sen (idx + 0) m
      rw [Nat.add_zero]
    · apply List.map_congr_left
      intro t ht
      show keyRepr aid sen (idx + 1 + t) m = keyRepr aid sen (idx + Nat.succ t) m
      rw [show idx + 1 + t = idx + Nat.succ t from by omega]

/-- Within one acquisition group the naming keys are pairwise
distinct (positions differ, and the key rendering is injective in the
position). -/
theorem acquisitionKeys_nodup (aid sen : String) (m : Nat) (hm : 0 < m)
    (records : List Record) :
    ((acquisitionKeys aid records sen m).map Prod.fst).Nodup := by
  show ((keysLoop aid sen m 1 (sortRecords records)).map Prod.fst).Nodup
  rw [keysLoop_keys]
  refine List.Nodup.map_on ?_ (List.nodup_range _)
  intro x hx y hy hxy
  have := keyRepr_inj aid sen m hm (1 + x) (1 + y) (by omega) (by omega) hxy
  omega

/-- Every naming key of an acquisition group is the rendering of some
1-based position. -/
theorem acquisitionKeys_mem (aid sen : String) (m : Nat) (records : List Record)
    (k : String) (h : k ∈ (acquisitionKeys aid records sen m).map Prod.fst) :
    ∃ t, k = keyRepr aid sen (1 + t) m := by
  have h' : k ∈ (keysLoop aid sen m 1 (sortRecords records)).map Prod.fst := h
  rw [keysLoop_keys] at h'
  obtain ⟨t, ht, heq⟩ := List.mem_map.mp h'
  exact ⟨t, heq.symm⟩

/-- C9 (amended): within ONE process_records_by_acquisition call with a
positive files-per-sequence cap and 8-digit acquisition dates, the
output naming keys acquisition_id_Sseq_sensor_frame of all processed
records are pairwise distinct: keys of the same acquisition differ in
the (sequence, frame) rendering of the 1-based position, and keys of
different acquisitions differ in the 8-character date prefix of the
acquisition id. The original claim of GLOBAL uniqueness across a whole
multi-acquisition run is refuted by the companion counterexample:
run_multi_acquisition restarts sequence and frame numbering in every
per-plan call, so two plans sharing date, region and sensor assign the
same key to distinct source images. -/
theorem naming_key_unique_per_call (records : List Record)
    (region sensor_id : String) (m : Nat) (hm : 0 < m)
    (hdates : ∀ r ∈ records, r.acquisition_date.length = 8) :
    ((callKeys records region sensor_id m).map Prod.fst).Nodup := by
  show ((((groupRecords records region).map
      (fun kv => acquisitionKeys kv.1 kv.2 sensor_id m)).flatten).map
      Prod.fst).Nodup
  rw [List.map_flatten, List.map_map, List.nodup_flatten]
  constructor
  · intro s hs
    rw [List.mem_map] at hs
    obtain ⟨kv, hkv, heq⟩ := hs
    rw [← heq]
    exact acquisitionKeys_nodup kv.1 sensor_id m hm kv.2
  · rw [List.pairwise_map]
    have hnd0 : ((groupRecords records region).map Prod.fst).Nodup :=
      groupFold_nodup region records [] (by simp)
    rw [List.Nodup, List.pairwise_map] at hnd0
    refine hnd0.imp_of_mem ?_
    intro a b ha hb hne k hka hkb
    obtain ⟨ta, hta⟩ := acquisitionKeys_mem a.1 sensor_id m a.2 k hka
    obtain ⟨tb, htb⟩ := acquisitionKeys_mem b.1 sensor_id m b.2 k hkb
    obtain ⟨ra, hra, haid⟩ := groupRecords_form records region a ha
    obtain ⟨rb, hrb, hbid⟩ := groupRecords_form records region b hb
    have haid' : a.1 = ra.acquisition_date ++ "-" ++ region := haid
    have hbid' : b.1 = rb.acquisition_date ++ "-" ++ region := hbid
    have h8a := keyRepr_take8 ra.acquisition_date region sensor_id (1 + ta) m
      (hdates ra hra)
    have h8b := keyRepr_take8 rb.acquisition_date region sensor_id (1 + tb) m
      (hdates rb hrb)
    rw [← haid'] at h8a
    rw [← hbid'] at h8b
    rw [← hta] at h8a
    rw [← htb] at h8b
    have hdd : ra.acquisition_date = rb.acquisition_date :=
      string_eq_of_data _ _ (h8a.symm.trans h8b)
    exact hne (by rw [haid', hbid', hdd])

/-- A record of the first plan and a record of the second plan of a
multi-acquisition run, same acquisition date, distinct sources. -/
def c9recA : Record :=
  ⟨"a.jpg", ".jpg", "a.jpg", "20240101", [], 0, Option.none⟩

def c9recB : Record :=
  ⟨"b.jpg", ".jpg", "b.jpg", "20240101", [], 0, Option.none⟩

/-- C9, counterexample to the claimed run-global uniqueness: a
multi-acquisition run over two plans that share the region "R" and the
sensor "Cam", each plan holding one image dated 20240101, assigns the
SAME naming key 20240101-R_S001_Cam_000001 to the two distinct source
images a.jpg and b.jpg, because sequence and frame numbering restart
in every per-plan process_records_by_acquisition call. -/
theorem naming_key_collision :
    runKeys [("R", "Cam", [c9recA]), ("R", "Cam", [c9recB])] 2000 =
      [("20240101-R_S001_Cam_000001", "a.jpg"),
       ("20240101-R_S001_Cam_000001", "b.jpg")] ∧
    c9recA.src ≠ c9recB.src ∧
    ¬ ((runKeys [("R", "Cam", [c9recA]), ("R", "Cam", [c9recB])] 2000).map
        Prod.fst).Nodup := by
  refine ⟨rfl, by decide, by decide⟩

/-- Witness for C9 at a concrete input: one call over both records
(0 < 2000, both dates 8 digits long) yields pairwise-distinct keys. -/
theorem naming_key_unique_per_call_witness :
    0 < 2000 ∧ (∀ r ∈ [c9recA, c9recB], r.acquisition_date.length = 8) ∧
    ((callKeys [c9recA, c9recB] "R" "Cam" 2000).map Prod.fst).Nodup :=
  ⟨by decide, by decide,
    naming_key_unique_per_call [c9recA, c9recB] "R" "Cam" 2000
      (by decide) (by decide)⟩

end FrameManager
